import Mathlib

/-!
Verification of mutpy's `codegen.py` (AST → source text generation) and
`coverage.py` (marker annotation, coverage instrumentation, coverage
injection session, per-test fingerprint listener).

The Python AST is shallowly embedded as the inductive `Node` below.  Each
constructor mirrors one `ast` node class together with its `_fields`, in
field order, restricted to the node kinds and fields the verified claims
exercise:

  * `arguments` is modelled with positional `args` only (no defaults,
    vararg, kwarg); `FunctionDef` is modelled without decorators and
    return annotation — the functions under study never render or
    instrument those fields.
  * context nodes (`Load`, `Store`) and operator nodes (`Add`, `Sub`,
    `Mult`) are modelled as real tree nodes, as in CPython's `ast`,
    because `MarkerNodeTransformer` assigns markers to them too.
  * optional source locations (`lineno`) are not modelled: every modelled
    node behaves as a node without a `lineno` attribute, so
    `correct_line_number`'s `hasattr(node, 'lineno')` branch is never
    taken.  None of the verified claims concern vertical-spacing
    reconstruction.
  * `tracking` is the injected coverage call
    `__covered_nodes__.update({...})` / `.add(...)` produced by
    `utils.create_ast` — modelled, as the design notes direct, as an
    ordinary side-effecting node kind carrying its marker set.  Freshly
    created tracking nodes carry no marker (`none`), matching
    `hasattr(node, 'marker') == False` on nodes built after annotation.

A `marker` field of `none` models the absence of the `marker` attribute
(`hasattr(node, 'marker') == False`); `some k` models `node.marker == k`.
-/

inductive Node : Type where
  | module (marker : Option Nat) (body : List Node)
  | functionDef (marker : Option Nat) (fname : String) (args : Node) (body : List Node)
  | argumentsNode (marker : Option Nat) (args : List Node)
  | argNode (marker : Option Nat) (aname : String)
  | ifStmt (marker : Option Nat) (test : Node) (body : List Node) (orelse : List Node)
  | forStmt (marker : Option Nat) (target : Node) (iter : Node) (body : List Node) (orelse : List Node)
  | whileStmt (marker : Option Nat) (test : Node) (body : List Node) (orelse : List Node)
  | assign (marker : Option Nat) (targets : List Node) (value : Node)
  | exprStmt (marker : Option Nat) (value : Node)
  | importFrom (marker : Option Nat) (module : Option String) (names : List Node) (level : Nat)
  | aliasNode (marker : Option Nat) (aname : String) (asname : Option String)
  | passStmt (marker : Option Nat)
  | nameNode (marker : Option Nat) (id : String) (ctx : Node)
  | load (marker : Option Nat)
  | store (marker : Option Nat)
  | numNode (marker : Option Nat) (n : Int)
  | strNode (marker : Option Nat) (s : String)
  | binOp (marker : Option Nat) (left : Node) (op : Node) (right : Node)
  | opAdd (marker : Option Nat)
  | opSub (marker : Option Nat)
  | opMult (marker : Option Nat)
  | tupleNode (marker : Option Nat) (elts : List Node) (ctx : Node)
  | unknown (marker : Option Nat) (tag : String) (children : List Node)
  | tracking (marker : Option Nat) (sets : Finset Nat)

namespace Node

/-- The `marker` attribute: `none` means `hasattr(node, 'marker') == False`. -/
def marker : Node → Option Nat
  | .module m _ => m
  | .functionDef m _ _ _ => m
  | .argumentsNode m _ => m
  | .argNode m _ => m
  | .ifStmt m _ _ _ => m
  | .forStmt m _ _ _ _ => m
  | .whileStmt m _ _ _ => m
  | .assign m _ _ => m
  | .exprStmt m _ => m
  | .importFrom m _ _ _ => m
  | .aliasNode m _ _ => m
  | .passStmt m => m
  | .nameNode m _ _ => m
  | .load m => m
  | .store m => m
  | .numNode m _ => m
  | .strNode m _ => m
  | .binOp m _ _ _ => m
  | .opAdd m => m
  | .opSub m => m
  | .opMult m => m
  | .tupleNode m _ _ => m
  | .unknown m _ _ => m
  | .tracking m _ => m

end Node

/-- Source `if not hasattr(node, 'marker'): node.marker = last_marker; last_marker += 1`
— the marker-assignment step of `MarkerNodeTransformer.visit`, threading the
`last_marker` counter. -/
def assignMarker (m : Option Nat) (c : Nat) : Option Nat × Nat :=
  match m with
  | none => (some c, c + 1)
  | some k => (some k, c)

mutual

/-- Source `MarkerNodeTransformer.visit`: assign a marker if the node has none,
then `generic_visit`, which visits the child nodes of every field in
`_fields` order.  The counter is `MarkerNodeTransformer.last_marker`,
threaded through the traversal. -/
def annotateNode (c : Nat) : Node → Node × Nat
  | .module m body =>
      let r0 := assignMarker m c
      let r1 := annotateList r0.2 body
      (.module r0.1 r1.1, r1.2)
  | .functionDef m fname args body =>
      let r0 := assignMarker m c
      let r1 := annotateNode r0.2 args
      let r2 := annotateList r1.2 body
      (.functionDef r0.1 fname r1.1 r2.1, r2.2)
  | .argumentsNode m args =>
      let r0 := assignMarker m c
      let r1 := annotateList r0.2 args
      (.argumentsNode r0.1 r1.1, r1.2)
  | .argNode m aname =>
      let r0 := assignMarker m c
      (.argNode r0.1 aname, r0.2)
  | .ifStmt m test body orelse =>
      let r0 := assignMarker m c
      let r1 := annotateNode r0.2 test
      let r2 := annotateList r1.2 body
      let r3 := annotateList r2.2 orelse
      (.ifStmt r0.1 r1.1 r2.1 r3.1, r3.2)
  | .forStmt m target iter body orelse =>
      let r0 := assignMarker m c
      let r1 := annotateNode r0.2 target
      let r2 := annotateNode r1.2 iter
      let r3 := annotateList r2.2 body
      let r4 := annotateList r3.2 orelse
      (.forStmt r0.1 r1.1 r2.1 r3.1 r4.1, r4.2)
  | .whileStmt m test body orelse =>
      let r0 := assignMarker m c
      let r1 := annotateNode r0.2 test
      let r2 := annotateList r1.2 body
      let r3 := annotateList r2.2 orelse
      (.whileStmt r0.1 r1.1 r2.1 r3.1, r3.2)
  | .assign m targets value =>
      let r0 := assignMarker m c
      let r1 := annotateList r0.2 targets
      let r2 := annotateNode r1.2 value
      (.assign r0.1 r1.1 r2.1, r2.2)
  | .exprStmt m value =>
      let r0 := assignMarker m c
      let r1 := annotateNode r0.2 value
      (.exprStmt r0.1 r1.1, r1.2)
  | .importFrom m md names level =>
      let r0 := assignMarker m c
      let r1 := annotateList r0.2 names
      (.importFrom r0.1 md r1.1 level, r1.2)
  | .aliasNode m aname asname =>
      let r0 := assignMarker m c
      (.aliasNode r0.1 aname asname, r0.2)
  | .passStmt m =>
      let r0 := assignMarker m c
      (.passStmt r0.1, r0.2)
  | .nameNode m id ctx =>
      let r0 := assignMarker m c
      let r1 := annotateNode r0.2 ctx
      (.nameNode r0.1 id r1.1, r1.2)
  | .load m =>
      let r0 := assignMarker m c
      (.load r0.1, r0.2)
  | .store m =>
      let r0 := assignMarker m c
      (.store r0.1, r0.2)
  | .numNode m n =>
      let r0 := assignMarker m c
      (.numNode r0.1 n, r0.2)
  | .strNode m s =>
      let r0 := assignMarker m c
      (.strNode r0.1 s, r0.2)
  | .binOp m left op right =>
      let r0 := assignMarker m c
      let r1 := annotateNode r0.2 left
      let r2 := annotateNode r1.2 op
      let r3 := annotateNode r2.2 right
      (.binOp r0.1 r1.1 r2.1 r3.1, r3.2)
  | .opAdd m =>
      let r0 := assignMarker m c
      (.opAdd r0.1, r0.2)
  | .opSub m =>
      let r0 := assignMarker m c
      (.opSub r0.1, r0.2)
  | .opMult m =>
      let r0 := assignMarker m c
      (.opMult r0.1, r0.2)
  | .tupleNode m elts ctx =>
      let r0 := assignMarker m c
      let r1 := annotateList r0.2 elts
      let r2 := annotateNode r1.2 ctx
      (.tupleNode r0.1 r1.1 r2.1, r2.2)
  | .unknown m tag children =>
      let r0 := assignMarker m c
      let r1 := annotateList r0.2 children
      (.unknown r0.1 tag r1.1, r1.2)
  | .tracking m sets =>
      let r0 := assignMarker m c
      (.tracking r0.1 sets, r0.2)

/-- Visiting the elements of a list-valued field left to right. -/
def annotateList (c : Nat) : List Node → List Node × Nat
  | [] => ([], c)
  | t :: ts =>
      let r1 := annotateNode c t
      let r2 := annotateList r1.2 ts
      (r1.1 :: r2.1, r2.2)

end

/-- Source `annotate(tree)`: run a fresh `MarkerNodeTransformer` (counter `0`)
over the tree; the transformed tree is the first component, the final
`last_marker` the second. -/
def annotate (t : Node) : Node × Nat := annotateNode 0 t

mutual

/-- All nodes of the subtree rooted at `t`, in pre-order: the node itself,
then the child nodes of every field in `_fields` order (parent before
children, children in declaration order — the order `generic_visit`
traverses them). -/
def preorderNodes : Node → List Node
  | t@(.module _ body) => t :: preorderNodesL body
  | t@(.functionDef _ _ args body) => t :: (preorderNodes args ++ preorderNodesL body)
  | t@(.argumentsNode _ args) => t :: preorderNodesL args
  | t@(.argNode _ _) => [t]
  | t@(.ifStmt _ test body orelse) =>
      t :: (preorderNodes test ++ preorderNodesL body ++ preorderNodesL orelse)
  | t@(.forStmt _ target iter body orelse) =>
      t :: (preorderNodes target ++ preorderNodes iter ++ preorderNodesL body ++ preorderNodesL orelse)
  | t@(.whileStmt _ test body orelse) =>
      t :: (preorderNodes test ++ preorderNodesL body ++ preorderNodesL orelse)
  | t@(.assign _ targets value) => t :: (preorderNodesL targets ++ preorderNodes value)
  | t@(.exprStmt _ value) => t :: preorderNodes value
  | t@(.importFrom _ _ names _) => t :: preorderNodesL names
  | t@(.aliasNode _ _ _) => [t]
  | t@(.passStmt _) => [t]
  | t@(.nameNode _ _ ctx) => t :: preorderNodes ctx
  | t@(.load _) => [t]
  | t@(.store _) => [t]
  | t@(.numNode _ _) => [t]
  | t@(.strNode _ _) => [t]
  | t@(.binOp _ left op right) =>
      t :: (preorderNodes left ++ preorderNodes op ++ preorderNodes right)
  | t@(.opAdd _) => [t]
  | t@(.opSub _) => [t]
  | t@(.opMult _) => [t]
  | t@(.tupleNode _ elts ctx) => t :: (preorderNodesL elts ++ preorderNodes ctx)
  | t@(.unknown _ _ children) => t :: preorderNodesL children
  | t@(.tracking _ _) => [t]

/-- Pre-order concatenation over a list-valued field. -/
def preorderNodesL : List Node → List Node
  | [] => []
  | t :: ts => preorderNodes t ++ preorderNodesL ts

end

/-- Number of AST nodes in the tree. -/
def sizeN (t : Node) : Nat := (preorderNodes t).length

/-- The markers of the tree's nodes, in pre-order. -/
def preorderMarkers (t : Node) : List (Option Nat) := (preorderNodes t).map Node.marker

/-- No node of the tree carries a `marker` attribute (the state of a tree
freshly produced by the parser, before any annotation pass). -/
def unmarkedN (t : Node) : Bool := (preorderNodes t).all fun u => u.marker.isNone

/-- Every node of the tree carries a `marker` attribute. -/
def allMarkedN (t : Node) : Bool := (preorderNodes t).all fun u => u.marker.isSome

/-- Source `{node.marker}` for a node that may lack the attribute: an annotated
node always has one; on an unmarked node the Python code would raise
`AttributeError`, modelled as the empty set. -/
def optMarkerSet (m : Option Nat) : Finset Nat :=
  match m with
  | none => ∅
  | some k => {k}

/-- Modelled from the spec: `node.children` (a stored attribute maintained
by `mutpy.utils`, outside `src/`) holds every strict descendant of the
node, so `{node.marker for node in node.children}` is the set of markers
of all descendants.  Injected tracking nodes carry no marker and
contribute nothing, so computing this over the (possibly instrumented)
subtree equals computing it over the stored pre-instrumentation children
list, whose nodes keep their markers unchanged. -/
def descMarkers (t : Node) : Finset Nat :=
  ((preorderNodes t).tail.filterMap Node.marker).toFinset

/-- The markers of all nodes of the subtree (the node itself included). -/
def treeMarkerSet (t : Node) : Finset Nat :=
  ((preorderNodes t).filterMap Node.marker).toFinset

/-!  ## Coverage classifier (`AbstractCoverageNodeTransformer` and its
Python 3.3 profile `CoverageNodeTransformerPython33`), restricted to the
modelled node kinds.  -/

/-- Source `get_statements_nodes()` membership (Assert, Assign, AugAssign, Break,
Continue, Delete, Expr, Global, Import, ImportFrom, Nonlocal, Pass, Raise,
Return), restricted to the modelled kinds. -/
def isStatementNode : Node → Bool
  | .assign _ _ _ => true
  | .exprStmt _ _ => true
  | .importFrom _ _ _ _ => true
  | .passStmt _ => true
  | _ => false

/-- Source `get_definitions_nodes()` membership (ClassDef, ExceptHandler,
FunctionDef, Try), restricted to the modelled kinds. -/
def isDefinitionNode : Node → Bool
  | .functionDef _ _ _ _ => true
  | _ => false

/-- Source `get_branch_nodes()` membership: If, For, While. -/
def isBranchNode : Node → Bool
  | .ifStmt _ _ _ _ => true
  | .forStmt _ _ _ _ _ => true
  | .whileStmt _ _ _ _ => true
  | _ => false

/-- Source `is_future_statement`: an `ImportFrom` whose `module` equals
`'__future__'` (no check of where the statement sits). -/
def is_future_statement : Node → Bool
  | .importFrom _ (some m) _ _ => m == "__future__"
  | _ => false

/-- Modelled from the spec: `utils.is_docstring` (outside `src/`)
identifies a literal documentation statement — an expression statement
whose value is a string literal.  Whether it stands first in the body of a
module, function or class is positional information supplied by the
caller (`transformBody`'s flag below). -/
def isDocstringExpr : Node → Bool
  | .exprStmt _ (.strNode _ _) => true
  | _ => false

/-- The `body` field of a block statement (empty for kinds without one). -/
def bodyField : Node → List Node
  | .module _ body => body
  | .functionDef _ _ _ body => body
  | .ifStmt _ _ body _ => body
  | .forStmt _ _ _ body _ => body
  | .whileStmt _ _ body _ => body
  | _ => []

/-- The `orelse` field of a branch statement (empty for other kinds). -/
def orelseField : Node → List Node
  | .ifStmt _ _ _ orelse => orelse
  | .forStmt _ _ _ _ orelse => orelse
  | .whileStmt _ _ _ orelse => orelse
  | _ => []

/-- The non-definition arm of `generate_coverage_node` before the branch
loop: `markers = {node.marker} | {node.marker for node in node.children}`. -/
def plainCoverageSet (t : Node) : Finset Nat :=
  optMarkerSet t.marker ∪ descMarkers t

/-- The branch arm of `generate_coverage_node`: starting from
`plainCoverageSet`, for each element of `node.body` that has a `marker`
attribute, `markers.difference_update({body_el.marker})` and
`markers.difference_update({node.marker for node in body_el.children})`. -/
def branchCoverageSet (t : Node) : Finset Nat :=
  (bodyField t).foldl
    (fun ms el =>
      if el.marker.isSome then ms \ (optMarkerSet el.marker ∪ descMarkers el) else ms)
    (plainCoverageSet t)

/-- Source `generate_coverage_node` for the non-definition kinds: the injected
`__covered_nodes__.update({...})` statement, modelled as a `tracking`
node carrying the computed marker set. -/
def generateCoverageNode (t : Node) : Node :=
  if isBranchNode t then .tracking none (branchCoverageSet t)
  else .tracking none (plainCoverageSet t)

/-- Source `inject_inside_visit`'s body edit for a definition node:
`node.body.insert(0, coverage_node)` with the
`__covered_nodes__.add(node.marker)` tracking statement. -/
def injectInsideTrack (t : Node) : Node :=
  match t with
  | .functionDef m f args body => .functionDef m f args (.tracking none (optMarkerSet m) :: body)
  | t => t

mutual

/-- Source `generic_visit` of `ast.NodeTransformer`: rebuild every field,
visiting single-node fields and splicing the visit results of
statement-list fields (`transformBody`).  In the modelled universe
single-node fields and non-body list fields only ever hold non-coverable
kinds, for which `visit` reduces to `generic_visit`. -/
def genericVisit : Node → Node
  | .module m body => .module m (transformBody true body)
  | .functionDef m f args body => .functionDef m f (genericVisit args) (transformBody true body)
  | .argumentsNode m args => .argumentsNode m (genericList args)
  | .argNode m a => .argNode m a
  | .ifStmt m test body orelse =>
      .ifStmt m (genericVisit test) (transformBody false body) (transformBody false orelse)
  | .forStmt m target iter body orelse =>
      .forStmt m (genericVisit target) (genericVisit iter)
        (transformBody false body) (transformBody false orelse)
  | .whileStmt m test body orelse =>
      .whileStmt m (genericVisit test) (transformBody false body) (transformBody false orelse)
  | .assign m targets value => .assign m (genericList targets) (genericVisit value)
  | .exprStmt m value => .exprStmt m (genericVisit value)
  | .importFrom m md names level => .importFrom m md (genericList names) level
  | .aliasNode m a asn => .aliasNode m a asn
  | .passStmt m => .passStmt m
  | .nameNode m id ctx => .nameNode m id (genericVisit ctx)
  | .load m => .load m
  | .store m => .store m
  | .numNode m n => .numNode m n
  | .strNode m s => .strNode m s
  | .binOp m left op right => .binOp m (genericVisit left) (genericVisit op) (genericVisit right)
  | .opAdd m => .opAdd m
  | .opSub m => .opSub m
  | .opMult m => .opMult m
  | .tupleNode m elts ctx => .tupleNode m (genericList elts) (genericVisit ctx)
  | .unknown m tag children => .unknown m tag (transformBody false children)
  | .tracking m s => .tracking m s

/-- Statement-list field handling of `generic_visit`, with the dispatch
of `visit` inlined for each element: the constructor of
`AbstractCoverageNodeTransformer` installs `inject_inside_visit` for
definition kinds and `inject_before_visit` for statement and branch
kinds; everything else falls through to `generic_visit`.
`inject_before_visit` first runs `generic_visit` on the node, passes a
`__future__` import or a docstring through untouched, and otherwise
injects the tracking statement before the node.  `docHost` says the list
is the body of a module/function/class, whose first statement can be a
leading docstring (the positional half of the spec-modelled
`utils.is_docstring`); the recursive call passes `false` for the later
statements. -/
def transformBody (docHost : Bool) : List Node → List Node
  | [] => []
  | s :: rest =>
      (if isDefinitionNode s then
        [injectInsideTrack (genericVisit s)]
      else if isStatementNode s || isBranchNode s then
        let t1 := genericVisit s
        if is_future_statement t1 || (docHost && isDocstringExpr t1) then [t1]
        else [generateCoverageNode t1, t1]
      else [genericVisit s])
      ++ transformBody false rest

/-- Non-body list fields (targets, elts, aliases, args): their elements
are never coverable kinds, so `visit` is `generic_visit` on each. -/
def genericList : List Node → List Node
  | [] => []
  | t :: ts => genericVisit t :: genericList ts

end

/-- Source `visit` on one statement of a body list — the dispatch inlined in
`transformBody`, as a standalone function for the statements of the
theorems below.  `docLead` says the statement stands first in the body of
a module/function/class. -/
def visitStmt (docLead : Bool) (s : Node) : List Node :=
  if isDefinitionNode s then
    [injectInsideTrack (genericVisit s)]
  else if isStatementNode s || isBranchNode s then
    let t1 := genericVisit s
    if is_future_statement t1 || (docLead && isDocstringExpr t1) then [t1]
    else [generateCoverageNode t1, t1]
  else [genericVisit s]

/-!  ## Coverage Injector session (`CoverageInjector`)  -/

/-- The accessor picking a tracking statement's marker set (`none` on
every other node kind). -/
def trackingSetOf : Node → Option (Finset Nat)
  | .tracking _ s => some s
  | _ => none

/-- Whether a node is an injected tracking statement. -/
def isTrackingB : Node → Bool
  | .tracking _ _ => true
  | _ => false

/-- The marker sets of all injected tracking statements present in an
instrumented tree. -/
def trackingSets (t : Node) : List (Finset Nat) :=
  (preorderNodes t).filterMap trackingSetOf

/-- Source `trackingSets` for a forest. -/
def trackingSetsL (ts : List Node) : List (Finset Nat) :=
  (preorderNodesL ts).filterMap trackingSetOf

/-- The tree contains no tracking statements (true of every tree built
from the real `ast` node classes — the tracking kind only enters through
instrumentation). -/
def trackingFree (t : Node) : Bool :=
  (preorderNodes t).all fun u => !(isTrackingB u)

/-- Source `trackingFree` for a forest. -/
def trackingFreeL (ts : List Node) : Bool :=
  (preorderNodesL ts).all fun u => !(isTrackingB u)

/-- Source `treeMarkerSet` for a forest. -/
def treeMarkerSetL (ts : List Node) : Finset Nat :=
  ((preorderNodesL ts).filterMap Node.marker).toFinset

/-- Source `CoverageInjector.inject(node)`: clear `covered_nodes`, annotate the
tree with a fresh `MarkerNodeTransformer`, deep-copy it (pure values: the
identity here) and instrument the copy with `CoverageNodeTransformer`,
then add the instrumented root's marker to `covered_nodes` and hand the
tree to the module loader.  Returns the instrumented tree, the
`covered_nodes` state at the moment loading starts, and
`marker_transformer.last_marker`.  (The root of a driver tree is a
`Module`, which is not a coverable kind, so top-level `visit` is
`generic_visit`.) -/
def inject (t : Node) : Node × Finset Nat × Nat :=
  let r := annotate t
  let coverageNode := genericVisit r.1
  (coverageNode, optMarkerSet coverageNode.marker, r.2)

/-- Source `CoverageInjector.is_covered(child_node)`:
`child_node.marker in self.covered_nodes`. -/
def is_covered (covered : Finset Nat) (childNode : Node) : Bool :=
  match childNode.marker with
  | some m => m ∈ covered
  | none => false

/-- Source `CoverageInjector.get_result()`:
`(len(self.covered_nodes), self.marker_transformer.last_marker)`. -/
def get_result (covered : Finset Nat) (lastMarker : Nat) : Nat × Nat :=
  (covered.card, lastMarker)

/-- Modelled from the spec: session states reachable by executing the
instrumented code — starting from the `covered_nodes` state left by
`inject`, each executed tracking statement unions its marker set into
`CoveredSet`; nothing else modifies it. -/
inductive Reachable (sets : List (Finset Nat)) : Finset Nat → Finset Nat → Prop where
  | refl (S : Finset Nat) : Reachable sets S S
  | step {S T u : Finset Nat} (h : Reachable sets S T) (hu : u ∈ sets) :
      Reachable sets S (T ∪ u)

/-!  ## Execution of instrumented code (modelled from the spec)  -/

/-- Modelled from the spec: truthiness of a branch test under an
environment giving each name a boolean value.  Only the forms the claims
exercise are interpreted; other expressions default to true. -/
def evalTest (env : String → Bool) : Node → Bool
  | .nameNode _ id _ => env id
  | .numNode _ n => n != 0
  | _ => true

mutual

/-- Modelled from the spec: load-time and test-time execution of instrumented
statements over the covered set.  A tracking statement unions its marker
set into `CoveredSet`; an `if` runs its body or its orelse according to
the test; executing a module runs its body; defining a function executes
nothing of its body; the remaining modelled statements do not touch
`CoveredSet`.  Loop statements are modelled as not entering their body —
none of the claims' scenarios executes a loop. -/
def execStmt (env : String → Bool) (cov : Finset Nat) : Node → Finset Nat
  | .tracking _ s => cov ∪ s
  | .ifStmt _ test body orelse =>
      if evalTest env test then execStmts env cov body else execStmts env cov orelse
  | .module _ body => execStmts env cov body
  | _ => cov

/-- Execute statements in sequence, threading `CoveredSet`. -/
def execStmts (env : String → Bool) (cov : Finset Nat) : List Node → Finset Nat
  | [] => cov
  | s :: rest => execStmts env (execStmt env cov s) rest

end

/-!  ## Per-test fingerprint listener (`CoverageTestResult`)  -/

/-- The state of a `CoverageTestResult` listener together with the
injector's `covered_nodes` set it manipulates.  `testCoveredNodes` maps a
test identifier to its recorded fingerprint. -/
structure CoverageTestResult where
  injectorCovered : Finset Nat
  alwaysCoveredNodes : Finset Nat
  testCoveredNodes : List (Nat × Finset Nat)
  coveredNodes : Finset Nat

/-- Source `CoverageTestResult.__init__`: `always_covered_nodes` is a copy of the
injector's `covered_nodes` at construction time; no fingerprints yet.
(`self.covered_nodes` does not exist until `startTest`; it is modelled
as initially empty and is never read before `startTest` sets it.) -/
def CoverageTestResult.init (injectorCovered : Finset Nat) : CoverageTestResult :=
  ⟨injectorCovered, injectorCovered, [], ∅⟩

/-- Source `startTest`: snapshot the injector's `covered_nodes` into
`self.covered_nodes`, then clear the injector's set. -/
def CoverageTestResult.startTest (r : CoverageTestResult) : CoverageTestResult :=
  { r with coveredNodes := r.injectorCovered, injectorCovered := ∅ }

/-- The test body executing: every tracking statement it runs unions its
markers into the injector's `covered_nodes`; `during` is the union of
those sets. -/
def CoverageTestResult.runTest (r : CoverageTestResult) (during : Finset Nat) : CoverageTestResult :=
  { r with injectorCovered := r.injectorCovered ∪ during }

/-- Source `stopTest`: record `test_covered_nodes[test] =
covered_nodes.copy() | always_covered_nodes` (the injector's current set
united with the baseline), then merge the pre-test snapshot back:
`covered_nodes.update(self.covered_nodes)`. -/
def CoverageTestResult.stopTest (r : CoverageTestResult) (test : Nat) : CoverageTestResult :=
  { r with
      testCoveredNodes := (test, r.injectorCovered ∪ r.alwaysCoveredNodes) :: r.testCoveredNodes,
      injectorCovered := r.injectorCovered ∪ r.coveredNodes }

/-!  ## Source generator (`codegen.py`)

State of `AbstractSourceGenerator`: output buffer `result`, `indentation`
depth and the pending `new_line` flag.  `indent_with` is fixed to
`to_source`'s default of four spaces.  Since no modelled node carries a
`lineno` attribute, `correct_line_number`'s catch-up branch
(`if node and hasattr(node, 'lineno')`) never fires and the `node`
argument of `write`/`newline` is dropped.  A missing operator symbol
(`BINOP_SYMBOLS[type(node.op)]` on an unregistered operator class) is the
generator's only failure and surfaces as `Except.error`.  -/

structure GenState where
  result : List String
  indentation : Nat
  newLine : Bool

/-- Source `indent_with`, the default `' ' * 4` of `to_source`. -/
def indentWith : String := "    "

/-- Source `indent_with * indentation`. -/
def strRepeat (s : String) : Nat → String
  | 0 => ""
  | n + 1 => s ++ strRepeat s n

/-- Source `correct_line_number` for nodes without a `lineno` attribute: flush a
pending new line (a `'\n'` when the buffer is nonempty, then the current
indentation) and clear the flag. -/
def correctLineNumber (s : GenState) : GenState :=
  if s.newLine then
    { result :=
        (if s.result.isEmpty then s.result else s.result ++ ["\n"])
          ++ [strRepeat indentWith s.indentation],
      indentation := s.indentation, newLine := false }
  else s

/-- Source `write(x)`: flush any pending new line, then append `x` to the buffer. -/
def write (x : String) (s : GenState) : GenState :=
  let s1 := correctLineNumber s
  { s1 with result := s1.result ++ [x] }

/-- Source `newline()`: set the pending-new-line flag and immediately run
`correct_line_number`. -/
def newlineG (s : GenState) : GenState :=
  correctLineNumber { s with newLine := true }

/-- Source `BOOLOP_SYMBOLS`/`BINOP_SYMBOLS`/… : the symbol tables, restricted to
the modelled operator nodes; `none` is a `KeyError` lookup. -/
def BINOP_SYMBOLS : Node → Option String
  | .opAdd _ => some "+"
  | .opSub _ => some "-"
  | .opMult _ => some "*"
  | _ => none

/-- Python's `repr` of an `int`. -/
def pyReprInt (n : Int) : String := toString n

/-- Python's `repr` of a `str`, modelled for strings without quotes or
escape-worthy characters (the only ones the claims exercise). -/
def pyReprStr (s : String) : String := "'" ++ s ++ "'"

/-- The fixed well-known binding of the covered set:
`COVERAGE_SET_NAME = '__covered_nodes__'`. -/
def COVERAGE_SET_NAME : String := "__covered_nodes__"

/-- Rendering of a `Finset` literal for the injected tracking call
(modelled from the spec; the claims never render tracking nodes). -/
def reprMarkerSet (s : Finset Nat) : String :=
  "\x7b" ++ String.intercalate ", " ((s.sort (· ≤ ·)).map toString) ++ "\x7d"

/-- The text of one import alias inside `visit_ImportFrom`'s format
(`name` or `name as asname`); non-alias nodes contribute their empty
default (unreachable: `ImportFrom.names` holds aliases). -/
def aliasText : Node → String
  | .aliasNode _ aname asname =>
      match asname with
      | some a => aname ++ " as " ++ a
      | none => aname
  | _ => ""

/-- The `args` list of an `arguments` node. -/
def argsOf : Node → List Node
  | .argumentsNode _ args => args
  | _ => []

/-- The entry half of `body(statements)`: set the pending-new-line flag
and indent one level (the statement loop itself is `visitSeq`). -/
def bodyEnter (s : GenState) : GenState :=
  { s with newLine := true, indentation := s.indentation + 1 }

/-- The exit half of `body(statements)`: dedent. -/
def bodyExit (s : GenState) : GenState :=
  { s with indentation := s.indentation - 1 }

mutual

/-- Source `NodeVisitor.visit` of the source generator: dispatch to the
`visit_<Kind>` renderer when one exists, otherwise `generic_visit`
(visit all child nodes, emitting nothing for the node itself).  Compound
statements run `body(...)` as `bodyEnter`, the statement loop
(`visitSeq`), then `bodyExit`. -/
def visitN : Node → GenState → Except String GenState
  -- no visit_Module: generic_visit
  | .module _ body, s => visitSeq body s
  | .functionDef _ fname args body, s => do
      -- visit_FunctionDef (decorators modelled empty)
      let s1 := write ("def " ++ fname ++ "(") (newlineG s)
      let s2 ← match args with                   -- signature(node.args)
        | .argumentsNode _ argList => visitCommaSep argList s1
        | _ => .ok s1
      let s3 ← visitSeq body (bodyEnter (write "):" s2))
      .ok (bodyExit s3)
  | .argumentsNode _ args, s => visitSeq args s   -- no renderer: generic_visit
  | .argNode _ aname, s => .ok (write aname s)    -- visit_arg
  | .ifStmt _ test body orelse, s => do
      -- visit_If with its elif/else while-loop
      let s1 ← visitN test (write "if " (newlineG s))
      let s2 ← visitSeq body (bodyEnter (write ":" s1))
      visitIfTail orelse (bodyExit s2)
  | .forStmt _ target iter body orelse, s => do
      -- visit_For, ending in body_or_else(node)
      let s1 ← visitN target (write "for " (newlineG s))
      let s2 ← visitN iter (write " in " s1)
      let s3 ← visitSeq body (bodyEnter (write ":" s2))
      match orelse with
      | [] => .ok (bodyExit s3)
      | _ => do
          let s4 ← visitSeq orelse (bodyEnter (write "else:" (newlineG (bodyExit s3))))
          .ok (bodyExit s4)
  | .whileStmt _ test body orelse, s => do
      -- visit_While, ending in body_or_else(node)
      let s1 ← visitN test (write "while " (newlineG s))
      let s2 ← visitSeq body (bodyEnter (write ":" s1))
      match orelse with
      | [] => .ok (bodyExit s2)
      | _ => do
          let s3 ← visitSeq orelse (bodyEnter (write "else:" (newlineG (bodyExit s2))))
          .ok (bodyExit s3)
  | .assign _ targets value, s => do
      -- visit_Assign
      let s1 ← visitCommaSep targets (newlineG s)
      visitN value (write " = " s1)
  | .exprStmt _ value, s =>
      -- visit_Expr: newline, then generic_visit
      visitN value (newlineG s)
  | .importFrom _ md names level, s =>
      -- visit_ImportFrom: one formatted write; aliases are not visited
      .ok (write ("from " ++ strRepeat "." level ++ md.getD ""
        ++ " import " ++ String.intercalate ", " (names.map aliasText)) (newlineG s))
  | .aliasNode _ aname asname, s =>
      -- visit_alias
      .ok (write (aliasText (.aliasNode none aname asname)) s)
  | .passStmt _, s => .ok (write "pass" (newlineG s))   -- visit_Pass
  | .nameNode _ id _, s => .ok (write id s)             -- visit_Name (id is a str)
  | .load _, s => .ok s                                 -- no renderer, no children
  | .store _, s => .ok s
  | .numNode _ n, s => .ok (write (pyReprInt n) s)      -- visit_Num
  | .strNode _ str, s => .ok (write (pyReprStr str) s)  -- visit_Str
  | .binOp _ left op right, s => do
      -- visit_BinOp: NO parentheses around the operands
      let s1 ← visitN left s
      match BINOP_SYMBOLS op with
      | some sym => visitN right (write (" " ++ sym ++ " ") s1)
      | none => .error "KeyError"
  | .opAdd _, s => .ok s
  | .opSub _, s => .ok s
  | .opMult _, s => .ok s
  | .tupleNode _ elts _, s => do
      -- visit_Tuple: `idx` ends at -1 for an empty tuple, `len(elts) - 1`
      -- otherwise; the closing token is `idx and ')' or ',)'`
      let s1 ← visitCommaSep elts (write "(" s)
      let idx : Int := (elts.length : Int) - 1
      .ok (write (if idx = 0 then ",)" else ")") s1)
  | .unknown _ _ children, s => visitSeq children s     -- no renderer: generic_visit
  | .tracking _ sets, s =>
      -- the injected `__covered_nodes__.update({...})` statement renders
      -- as an Expr holding a call (modelled from the spec)
      .ok (write (COVERAGE_SET_NAME ++ ".update(" ++ reprMarkerSet sets ++ ")") (newlineG s))

/-- Source `generic_visit`'s child loop / the statement loop of `body`. -/
def visitSeq : List Node → GenState → Except String GenState
  | [], s => .ok s
  | t :: ts, s => do
      let s1 ← visitN t s
      visitSeq ts s1

/-- The `while node.orelse:` loop of `visit_If`: a single nested `If`
renders as `elif`, anything else as a final `else:` block. -/
def visitIfTail : List Node → GenState → Except String GenState
  | [], s => .ok s
  | [.ifStmt _ test body orelse], s => do
      let s1 ← visitN test (write "elif " (newlineG s))
      let s2 ← visitSeq body (bodyEnter (write ":" s1))
      visitIfTail orelse (bodyExit s2)
  | t :: rest, s => do
      let s1 ← visitN t (bodyEnter (write "else:" (newlineG s)))
      let s2 ← visitSeq rest s1
      .ok (bodyExit s2)

/-- The comma-separation loops (`for idx, x in enumerate(...): if idx:
self.write(', '); self.visit(x)` and `signature`'s `write_comma`). -/
def visitCommaSep : List Node → GenState → Except String GenState
  | [], s => .ok s
  | t :: ts, s => do
      let s1 ← visitN t s
      visitCommaTail ts s1

/-- Comma-separation after the first element. -/
def visitCommaTail : List Node → GenState → Except String GenState
  | [], s => .ok s
  | t :: ts, s => do
      let s1 ← visitN t (write ", " s)
      visitCommaTail ts s1

end

/-- Source `to_source(node)`: run a fresh generator over the tree and join the
buffer. -/
def to_source (t : Node) : Except String String :=
  (visitN t ⟨[], 0, false⟩).map fun s => String.join s.result

/-- Size of a list-valued field's forest. -/
def sizeL (ts : List Node) : Nat := (preorderNodesL ts).length

/-- Source `unmarkedN` for a forest. -/
def unmarkedL (ts : List Node) : Bool := (preorderNodesL ts).all fun u => u.marker.isNone

/-- Source `allMarkedN` for a forest. -/
def allMarkedL (ts : List Node) : Bool := (preorderNodesL ts).all fun u => u.marker.isSome

/-- The markers a fresh annotation pass hands out from counter `c`:
`[some c, some (c+1), …]`, `n` of them. -/
def markerRange (c n : Nat) : List (Option Nat) := (List.range' c n).map some

mutual

/-- Expression trees built only from atomic literals, names, registered
binary operators and tuples: the pure-expression fragment whose
rendering never emits a line break and never fails. -/
def pureExpr : Node → Bool
  | .nameNode _ _ _ => true
  | .numNode _ _ => true
  | .strNode _ _ => true
  | .binOp _ left op right => pureExpr left && (BINOP_SYMBOLS op).isSome && pureExpr right
  | .tupleNode _ elts _ => pureExprL elts
  | _ => false

/-- Source `pureExpr` over a list of element expressions. -/
def pureExprL : List Node → Bool
  | [] => true
  | e :: ts => pureExpr e && pureExprL ts

end

/-- The text a standalone `to_source` run produces for an expression
(empty on failure). -/
def exprText (e : Node) : String :=
  match to_source e with
  | .ok s => s
  | .error _ => ""

/-- Modelled from the spec: the mathematical value of an arithmetic
expression tree under an integer environment — the semantic-equivalence
referee for the round-trip law (the parser and evaluator are external
collaborators). -/
def evalExpr (env : String → Int) : Node → Option Int
  | .nameNode _ id _ => some (env id)
  | .numNode _ n => some n
  | .binOp _ left op right =>
      match evalExpr env left, evalExpr env right with
      | some l, some r =>
          match op with
          | .opAdd _ => some (l + r)
          | .opSub _ => some (l - r)
          | .opMult _ => some (l * r)
          | _ => none
      | _, _ => none
  | _ => none

/-!  ## Example trees used by the witnesses and counterexamples below  -/

/-- Source `a` as an expression. -/
def egA : Node := .nameNode none "a" (.load none)

/-- Source `b` as an expression. -/
def egB : Node := .nameNode none "b" (.load none)

/-- Source `c` as an expression. -/
def egC : Node := .nameNode none "c" (.load none)

/-- The tree of `(a + b) * c`: multiplication whose left operand is the
nested addition. -/
def egMulOfAdd : Node := .binOp none (.binOp none egA (.opAdd none) egB) (.opMult none) egC

/-- The tree of `a + b * c`: addition whose right operand is the nested
multiplication. -/
def egAddOfMul : Node := .binOp none egA (.opAdd none) (.binOp none egB (.opMult none) egC)

/-- The module `if x: y = 1`. -/
def egIfTree : Node :=
  .module none [.ifStmt none (.nameNode none "x" (.load none))
    [.assign none [.nameNode none "y" (.store none)] (.numNode none 1)] []]

/-- A module holding an `if` whose body is a `__future__` import:
`if x: from __future__ import division`. -/
def egIfFutureTree : Node :=
  .module none [.ifStmt none (.nameNode none "x" (.load none))
    [.importFrom none (some "__future__") [.aliasNode none "division" none] 0] []]

/-- A module holding a function whose body ends in a (non-module-level)
`__future__` import: `def f(): pass; from __future__ import division`. -/
def egFnFutureTree : Node :=
  .module none [.functionDef none "f" (.argumentsNode none [])
    [.passStmt none, .importFrom none (some "__future__") [.aliasNode none "division" none] 0]]

/-- The module `x = 1` — one plain assignment. -/
def egAssignTree : Node :=
  .module none [.assign none [.nameNode none "x" (.store none)] (.numNode none 1)]

/-- A module with an `if`/`else`:
`if x: y = 1` followed by `else: z = 2`. -/
def egIfElseTree : Node :=
  .module none [.ifStmt none (.nameNode none "x" (.load none))
    [.assign none [.nameNode none "y" (.store none)] (.numNode none 1)]
    [.assign none [.nameNode none "z" (.store none)] (.numNode none 2)]]


/-- A module whose statement holds a node kind with no registered
renderer: `Await` wrapping the name `x`, as an expression statement. -/
def egUnknownTree : Node :=
  .module none [.exprStmt none (.unknown none "Await" [.nameNode none "x" (.load none)])]

/-- The `if x: y = 1` assignment node as it sits in the annotated tree:
marker 4, with descendants `y` (5), its store context (6) and the literal
1 (7). -/
def egAnnotatedAssign : Node :=
  .assign (some 4) [.nameNode (some 5) "y" (.store (some 6))] (.numNode (some 7) 1)

/-- The annotated `if x: y = 1 else: z = 2` branch node as the annotation
pass of `egIfElseTree` produces it (markers 1-11 in pre-order below the
module node). -/
def egAnnotatedIfElse : Node :=
  .ifStmt (some 1) (.nameNode (some 2) "x" (.load (some 3)))
    [.assign (some 4) [.nameNode (some 5) "y" (.store (some 6))] (.numNode (some 7) 1)]
    [.assign (some 8) [.nameNode (some 9) "z" (.store (some 10))] (.numNode (some 11) 2)]

/-!  ## Theorems

First the annotation pass (`MarkerNodeTransformer`): starting from
counter `c`, an unmarked tree of `n` nodes receives exactly the markers
`c, c+1, …, c+n-1`, laid out in pre-order, and the counter advances to
`c + n`.  -/

/-- Source `transformBody` processes its head by `visitStmt` and its tail with
the leading-docstring position gone. -/
theorem transformBody_cons (docHost : Bool) (s : Node) (rest : List Node) :
    transformBody docHost (s :: rest) = visitStmt docHost s ++ transformBody false rest := rfl

theorem markerRange_succ (c n : Nat) :
    markerRange c (n + 1) = some c :: markerRange (c + 1) n := by
  simp [markerRange, List.range'_succ]

theorem markerRange_append (c m n : Nat) :
    markerRange c m ++ markerRange (c + m) n = markerRange c (m + n) := by
  unfold markerRange
  rw [← List.map_append]
  have h := List.range'_append c m n 1
  simp only [one_mul] at h
  rw [h, Nat.add_comm n m]

theorem markerRange_append_of (c a d b : Nat) (h : d = c + a) :
    markerRange c a ++ markerRange d b = markerRange c (a + b) := by
  subst h
  exact markerRange_append c a b

mutual

/-- Starting from counter `c`, annotating an unmarked tree lays out the
markers `c, c+1, …` in pre-order and advances the counter by the number
of nodes. -/
theorem annotateNode_spec : (t : Node) → (c : Nat) → unmarkedN t = true →
    (preorderNodes (annotateNode c t).1).map Node.marker = markerRange c (sizeN t)
      ∧ (annotateNode c t).2 = c + sizeN t
  | .module m body, c, h => by
      cases m with
      | some k => simp [unmarkedN, preorderNodes, Node.marker] at h
      | none =>
        simp only [unmarkedN, unmarkedL, preorderNodes, preorderNodesL, List.all_cons,
                  List.all_append, Bool.and_eq_true, Node.marker, Option.isNone, true_and] at h
        have hh1 := h
        obtain ⟨h1a, h1b⟩ := annotateList_spec body (c + 1) hh1
        simp only [annotateNode, annotateList, assignMarker]
        constructor
        · simp only [preorderNodes, preorderNodesL, List.map_cons, List.map_append,
            Node.marker]
          rw [h1a]
          rw [← markerRange_succ]
          congr 1
          try simp only [sizeN, sizeL, preorderNodes, preorderNodesL, List.length_cons,
            List.length_append]
          try omega
        · rw [h1b]
          simp only [sizeN, sizeL, preorderNodes, preorderNodesL, List.length_cons,
            List.length_append]
          try omega
  | .functionDef m fname args body, c, h => by
      cases m with
      | some k => simp [unmarkedN, preorderNodes, Node.marker] at h
      | none =>
        simp only [unmarkedN, unmarkedL, preorderNodes, preorderNodesL, List.all_cons,
                  List.all_append, Bool.and_eq_true, Node.marker, Option.isNone, true_and] at h
        obtain ⟨hh1, hh2⟩ := h
        obtain ⟨h1a, h1b⟩ := annotateNode_spec args (c + 1) hh1
        obtain ⟨h2a, h2b⟩ := annotateList_spec body (annotateNode (c + 1) args).2 hh2
        simp only [annotateNode, annotateList, assignMarker]
        rw [h1b] at h2a h2b ⊢
        constructor
        · simp only [preorderNodes, preorderNodesL, List.map_cons, List.map_append,
            Node.marker]
          rw [h1a, h2a]
          rw [markerRange_append_of (c + 1) (sizeN args) (c + 1 + sizeN args) (sizeL body) (by omega)]
          rw [← markerRange_succ]
          congr 1
          try simp only [sizeN, sizeL, preorderNodes, preorderNodesL, List.length_cons,
            List.length_append]
          try omega
        · rw [h2b]
          simp only [sizeN, sizeL, preorderNodes, preorderNodesL, List.length_cons,
            List.length_append]
          try omega
  | .argumentsNode m args, c, h => by
      cases m with
      | some k => simp [unmarkedN, preorderNodes, Node.marker] at h
      | none =>
        simp only [unmarkedN, unmarkedL, preorderNodes, preorderNodesL, List.all_cons,
                  List.all_append, Bool.and_eq_true, Node.marker, Option.isNone, true_and] at h
        have hh1 := h
        obtain ⟨h1a, h1b⟩ := annotateList_spec args (c + 1) hh1
        simp only [annotateNode, annotateList, assignMarker]
        constructor
        · simp only [preorderNodes, preorderNodesL, List.map_cons, List.map_append,
            Node.marker]
          rw [h1a]
          rw [← markerRange_succ]
          congr 1
          try simp only [sizeN, sizeL, preorderNodes, preorderNodesL, List.length_cons,
            List.length_append]
          try omega
        · rw [h1b]
          simp only [sizeN, sizeL, preorderNodes, preorderNodesL, List.length_cons,
            List.length_append]
          try omega
  | .argNode m aname, c, h => by
      cases m with
      | some k => simp [unmarkedN, preorderNodes, Node.marker] at h
      | none => exact ⟨rfl, rfl⟩
  | .ifStmt m test body orelse, c, h => by
      cases m with
      | some k => simp [unmarkedN, preorderNodes, Node.marker] at h
      | none =>
        simp only [unmarkedN, unmarkedL, preorderNodes, preorderNodesL, List.all_cons,
                  List.all_append, Bool.and_eq_true, Node.marker, Option.isNone, true_and] at h
        obtain ⟨⟨hh1, hh2⟩, hh3⟩ := h
        obtain ⟨h1a, h1b⟩ := annotateNode_spec test (c + 1) hh1
        obtain ⟨h2a, h2b⟩ := annotateList_spec body (annotateNode (c + 1) test).2 hh2
        obtain ⟨h3a, h3b⟩ := annotateList_spec orelse (annotateList (annotateNode (c + 1) test).2 body).2 hh3
        simp only [annotateNode, annotateList, assignMarker]
        rw [h1b] at h2a h2b h3a h3b ⊢
        rw [h2b] at h3a h3b ⊢
        constructor
        · simp only [preorderNodes, preorderNodesL, List.map_cons, List.map_append,
            Node.marker]
          rw [h1a, h2a, h3a]
          rw [markerRange_append_of (c + 1) (sizeN test) (c + 1 + sizeN test) (sizeL body) (by omega)]
          rw [markerRange_append_of (c + 1) (sizeN test + sizeL body) (c + 1 + sizeN test + sizeL body) (sizeL orelse) (by omega)]
          rw [← markerRange_succ]
          congr 1
          try simp only [sizeN, sizeL, preorderNodes, preorderNodesL, List.length_cons,
            List.length_append]
          try omega
        · rw [h3b]
          simp only [sizeN, sizeL, preorderNodes, preorderNodesL, List.length_cons,
            List.length_append]
          try omega
  | .forStmt m target iter body orelse, c, h => by
      cases m with
      | some k => simp [unmarkedN, preorderNodes, Node.marker] at h
      | none =>
        simp only [unmarkedN, unmarkedL, preorderNodes, preorderNodesL, List.all_cons,
                  List.all_append, Bool.and_eq_true, Node.marker, Option.isNone, true_and] at h
        obtain ⟨⟨⟨hh1, hh2⟩, hh3⟩, hh4⟩ := h
        obtain ⟨h1a, h1b⟩ := annotateNode_spec target (c + 1) hh1
        obtain ⟨h2a, h2b⟩ := annotateNode_spec iter (annotateNode (c + 1) target).2 hh2
        obtain ⟨h3a, h3b⟩ := annotateList_spec body (annotateNode (annotateNode (c + 1) target).2 iter).2 hh3
        obtain ⟨h4a, h4b⟩ := annotateList_spec orelse (annotateList (annotateNode (annotateNode (c + 1) target).2 iter).2 body).2 hh4
        simp only [annotateNode, annotateList, assignMarker]
        rw [h1b] at h2a h2b h3a h3b h4a h4b ⊢
        rw [h2b] at h3a h3b h4a h4b ⊢
        rw [h3b] at h4a h4b ⊢
        constructor
        · simp only [preorderNodes, preorderNodesL, List.map_cons, List.map_append,
            Node.marker]
          rw [h1a, h2a, h3a, h4a]
          rw [markerRange_append_of (c + 1) (sizeN target) (c + 1 + sizeN target) (sizeN iter) (by omega)]
          rw [markerRange_append_of (c + 1) (sizeN target + sizeN iter) (c + 1 + sizeN target + sizeN iter) (sizeL body) (by omega)]
          rw [markerRange_append_of (c + 1) (sizeN target + sizeN iter + sizeL body) (c + 1 + sizeN target + sizeN iter + sizeL body) (sizeL orelse) (by omega)]
          rw [← markerRange_succ]
          congr 1
          try simp only [sizeN, sizeL, preorderNodes, preorderNodesL, List.length_cons,
            List.length_append]
          try omega
        · rw [h4b]
          simp only [sizeN, sizeL, preorderNodes, preorderNodesL, List.length_cons,
            List.length_append]
          try omega
  | .whileStmt m test body orelse, c, h => by
      cases m with
      | some k => simp [unmarkedN, preorderNodes, Node.marker] at h
      | none =>
        simp only [unmarkedN, unmarkedL, preorderNodes, preorderNodesL, List.all_cons,
                  List.all_append, Bool.and_eq_true, Node.marker, Option.isNone, true_and] at h
        obtain ⟨⟨hh1, hh2⟩, hh3⟩ := h
        obtain ⟨h1a, h1b⟩ := annotateNode_spec test (c + 1) hh1
        obtain ⟨h2a, h2b⟩ := annotateList_spec body (annotateNode (c + 1) test).2 hh2
        obtain ⟨h3a, h3b⟩ := annotateList_spec orelse (annotateList (annotateNode (c + 1) test).2 body).2 hh3
        simp only [annotateNode, annotateList, assignMarker]
        rw [h1b] at h2a h2b h3a h3b ⊢
        rw [h2b] at h3a h3b ⊢
        constructor
        · simp only [preorderNodes, preorderNodesL, List.map_cons, List.map_append,
            Node.marker]
          rw [h1a, h2a, h3a]
          rw [markerRange_append_of (c + 1) (sizeN test) (c + 1 + sizeN test) (sizeL body) (by omega)]
          rw [markerRange_append_of (c + 1) (sizeN test + sizeL body) (c + 1 + sizeN test + sizeL body) (sizeL orelse) (by omega)]
          rw [← markerRange_succ]
          congr 1
          try simp only [sizeN, sizeL, preorderNodes, preorderNodesL, List.length_cons,
            List.length_append]
          try omega
        · rw [h3b]
          simp only [sizeN, sizeL, preorderNodes, preorderNodesL, List.length_cons,
            List.length_append]
          try omega
  | .assign m targets value, c, h => by
      cases m with
      | some k => simp [unmarkedN, preorderNodes, Node.marker] at h
      | none =>
        simp only [unmarkedN, unmarkedL, preorderNodes, preorderNodesL, List.all_cons,
                  List.all_append, Bool.and_eq_true, Node.marker, Option.isNone, true_and] at h
        obtain ⟨hh1, hh2⟩ := h
        obtain ⟨h1a, h1b⟩ := annotateList_spec targets (c + 1) hh1
        obtain ⟨h2a, h2b⟩ := annotateNode_spec value (annotateList (c + 1) targets).2 hh2
        simp only [annotateNode, annotateList, assignMarker]
        rw [h1b] at h2a h2b ⊢
        constructor
        · simp only [preorderNodes, preorderNodesL, List.map_cons, List.map_append,
            Node.marker]
          rw [h1a, h2a]
          rw [markerRange_append_of (c + 1) (sizeL targets) (c + 1 + sizeL targets) (sizeN value) (by omega)]
          rw [← markerRange_succ]
          congr 1
          try simp only [sizeN, sizeL, preorderNodes, preorderNodesL, List.length_cons,
            List.length_append]
          try omega
        · rw [h2b]
          simp only [sizeN, sizeL, preorderNodes, preorderNodesL, List.length_cons,
            List.length_append]
          try omega
  | .exprStmt m value, c, h => by
      cases m with
      | some k => simp [unmarkedN, preorderNodes, Node.marker] at h
      | none =>
        simp only [unmarkedN, unmarkedL, preorderNodes, preorderNodesL, List.all_cons,
                  List.all_append, Bool.and_eq_true, Node.marker, Option.isNone, true_and] at h
        have hh1 := h
        obtain ⟨h1a, h1b⟩ := annotateNode_spec value (c + 1) hh1
        simp only [annotateNode, annotateList, assignMarker]
        constructor
        · simp only [preorderNodes, preorderNodesL, List.map_cons, List.map_append,
            Node.marker]
          rw [h1a]
          rw [← markerRange_succ]
          congr 1
          try simp only [sizeN, sizeL, preorderNodes, preorderNodesL, List.length_cons,
            List.length_append]
          try omega
        · rw [h1b]
          simp only [sizeN, sizeL, preorderNodes, preorderNodesL, List.length_cons,
            List.length_append]
          try omega
  | .importFrom m md names level, c, h => by
      cases m with
      | some k => simp [unmarkedN, preorderNodes, Node.marker] at h
      | none =>
        simp only [unmarkedN, unmarkedL, preorderNodes, preorderNodesL, List.all_cons,
                  List.all_append, Bool.and_eq_true, Node.marker, Option.isNone, true_and] at h
        have hh1 := h
        obtain ⟨h1a, h1b⟩ := annotateList_spec names (c + 1) hh1
        simp only [annotateNode, annotateList, assignMarker]
        constructor
        · simp only [preorderNodes, preorderNodesL, List.map_cons, List.map_append,
            Node.marker]
          rw [h1a]
          rw [← markerRange_succ]
          congr 1
          try simp only [sizeN, sizeL, preorderNodes, preorderNodesL, List.length_cons,
            List.length_append]
          try omega
        · rw [h1b]
          simp only [sizeN, sizeL, preorderNodes, preorderNodesL, List.length_cons,
            List.length_append]
          try omega
  | .aliasNode m aname asname, c, h => by
      cases m with
      | some k => simp [unmarkedN, preorderNodes, Node.marker] at h
      | none => exact ⟨rfl, rfl⟩
  | .passStmt m, c, h => by
      cases m with
      | some k => simp [unmarkedN, preorderNodes, Node.marker] at h
      | none => exact ⟨rfl, rfl⟩
  | .nameNode m id ctx, c, h => by
      cases m with
      | some k => simp [unmarkedN, preorderNodes, Node.marker] at h
      | none =>
        simp only [unmarkedN, unmarkedL, preorderNodes, preorderNodesL, List.all_cons,
                  List.all_append, Bool.and_eq_true, Node.marker, Option.isNone, true_and] at h
        have hh1 := h
        obtain ⟨h1a, h1b⟩ := annotateNode_spec ctx (c + 1) hh1
        simp only [annotateNode, annotateList, assignMarker]
        constructor
        · simp only [preorderNodes, preorderNodesL, List.map_cons, List.map_append,
            Node.marker]
          rw [h1a]
          rw [← markerRange_succ]
          congr 1
          try simp only [sizeN, sizeL, preorderNodes, preorderNodesL, List.length_cons,
            List.length_append]
          try omega
        · rw [h1b]
          simp only [sizeN, sizeL, preorderNodes, preorderNodesL, List.length_cons,
            List.length_append]
          try omega
  | .load m, c, h => by
      cases m with
      | some k => simp [unmarkedN, preorderNodes, Node.marker] at h
      | none => exact ⟨rfl, rfl⟩
  | .store m, c, h => by
      cases m with
      | some k => simp [unmarkedN, preorderNodes, Node.marker] at h
      | none => exact ⟨rfl, rfl⟩
  | .numNode m n, c, h => by
      cases m with
      | some k => simp [unmarkedN, preorderNodes, Node.marker] at h
      | none => exact ⟨rfl, rfl⟩
  | .strNode m s, c, h => by
      cases m with
      | some k => simp [unmarkedN, preorderNodes, Node.marker] at h
      | none => exact ⟨rfl, rfl⟩
  | .binOp m left op right, c, h => by
      cases m with
      | some k => simp [unmarkedN, preorderNodes, Node.marker] at h
      | none =>
        simp only [unmarkedN, unmarkedL, preorderNodes, preorderNodesL, List.all_cons,
                  List.all_append, Bool.and_eq_true, Node.marker, Option.isNone, true_and] at h
        obtain ⟨⟨hh1, hh2⟩, hh3⟩ := h
        obtain ⟨h1a, h1b⟩ := annotateNode_spec left (c + 1) hh1
        obtain ⟨h2a, h2b⟩ := annotateNode_spec op (annotateNode (c + 1) left).2 hh2
        obtain ⟨h3a, h3b⟩ := annotateNode_spec right (annotateNode (annotateNode (c + 1) left).2 op).2 hh3
        simp only [annotateNode, annotateList, assignMarker]
        rw [h1b] at h2a h2b h3a h3b ⊢
        rw [h2b] at h3a h3b ⊢
        constructor
        · simp only [preorderNodes, preorderNodesL, List.map_cons, List.map_append,
            Node.marker]
          rw [h1a, h2a, h3a]
          rw [markerRange_append_of (c + 1) (sizeN left) (c + 1 + sizeN left) (sizeN op) (by omega)]
          rw [markerRange_append_of (c + 1) (sizeN left + sizeN op) (c + 1 + sizeN left + sizeN op) (sizeN right) (by omega)]
          rw [← markerRange_succ]
          congr 1
          try simp only [sizeN, sizeL, preorderNodes, preorderNodesL, List.length_cons,
            List.length_append]
          try omega
        · rw [h3b]
          simp only [sizeN, sizeL, preorderNodes, preorderNodesL, List.length_cons,
            List.length_append]
          try omega
  | .opAdd m, c, h => by
      cases m with
      | some k => simp [unmarkedN, preorderNodes, Node.marker] at h
      | none => exact ⟨rfl, rfl⟩
  | .opSub m, c, h => by
      cases m with
      | some k => simp [unmarkedN, preorderNodes, Node.marker] at h
      | none => exact ⟨rfl, rfl⟩
  | .opMult m, c, h => by
      cases m with
      | some k => simp [unmarkedN, preorderNodes, Node.marker] at h
      | none => exact ⟨rfl, rfl⟩
  | .tupleNode m elts ctx, c, h => by
      cases m with
      | some k => simp [unmarkedN, preorderNodes, Node.marker] at h
      | none =>
        simp only [unmarkedN, unmarkedL, preorderNodes, preorderNodesL, List.all_cons,
                  List.all_append, Bool.and_eq_true, Node.marker, Option.isNone, true_and] at h
        obtain ⟨hh1, hh2⟩ := h
        obtain ⟨h1a, h1b⟩ := annotateList_spec elts (c + 1) hh1
        obtain ⟨h2a, h2b⟩ := annotateNode_spec ctx (annotateList (c + 1) elts).2 hh2
        simp only [annotateNode, annotateList, assignMarker]
        rw [h1b] at h2a h2b ⊢
        constructor
        · simp only [preorderNodes, preorderNodesL, List.map_cons, List.map_append,
            Node.marker]
          rw [h1a, h2a]
          rw [markerRange_append_of (c + 1) (sizeL elts) (c + 1 + sizeL elts) (sizeN ctx) (by omega)]
          rw [← markerRange_succ]
          congr 1
          try simp only [sizeN, sizeL, preorderNodes, preorderNodesL, List.length_cons,
            List.length_append]
          try omega
        · rw [h2b]
          simp only [sizeN, sizeL, preorderNodes, preorderNodesL, List.length_cons,
            List.length_append]
          try omega
  | .unknown m tag children, c, h => by
      cases m with
      | some k => simp [unmarkedN, preorderNodes, Node.marker] at h
      | none =>
        simp only [unmarkedN, unmarkedL, preorderNodes, preorderNodesL, List.all_cons,
                  List.all_append, Bool.and_eq_true, Node.marker, Option.isNone, true_and] at h
        have hh1 := h
        obtain ⟨h1a, h1b⟩ := annotateList_spec children (c + 1) hh1
        simp only [annotateNode, annotateList, assignMarker]
        constructor
        · simp only [preorderNodes, preorderNodesL, List.map_cons, List.map_append,
            Node.marker]
          rw [h1a]
          rw [← markerRange_succ]
          congr 1
          try simp only [sizeN, sizeL, preorderNodes, preorderNodesL, List.length_cons,
            List.length_append]
          try omega
        · rw [h1b]
          simp only [sizeN, sizeL, preorderNodes, preorderNodesL, List.length_cons,
            List.length_append]
          try omega
  | .tracking m sets, c, h => by
      cases m with
      | some k => simp [unmarkedN, preorderNodes, Node.marker] at h
      | none => exact ⟨rfl, rfl⟩

/-- The forest version of `annotateNode_spec`. -/
theorem annotateList_spec : (ts : List Node) → (c : Nat) → unmarkedL ts = true →
    (preorderNodesL (annotateList c ts).1).map Node.marker = markerRange c (sizeL ts)
      ∧ (annotateList c ts).2 = c + sizeL ts
  | [], c, h => ⟨rfl, rfl⟩
  | t :: ts, c, h => by
      simp only [unmarkedL, preorderNodesL, List.all_append, Bool.and_eq_true] at h
      obtain ⟨hh1, hh2⟩ := h
      obtain ⟨h1a, h1b⟩ := annotateNode_spec t c hh1
      obtain ⟨h2a, h2b⟩ := annotateList_spec ts (annotateNode c t).2 hh2
      simp only [annotateList]
      rw [h1b] at h2a h2b ⊢
      constructor
      · simp only [preorderNodesL, List.map_append]
        rw [h1a, h2a, markerRange_append]
        congr 1
        simp only [sizeN, sizeL, preorderNodesL, List.length_append]
      · rw [h2b]
        simp only [sizeN, sizeL, preorderNodesL, List.length_append]
        omega

end

mutual

/-- After an annotation pass, every node carries a marker (whatever the
input's marking state). -/
theorem annotateNode_allMarked : (t : Node) → (c : Nat) → allMarkedN (annotateNode c t).1 = true
  | .module m body, c => by
      have g1 := annotateList_allMarked body (assignMarker m c).2
      simp only [annotateNode, annotateList]
      simp only [allMarkedN, allMarkedL, preorderNodes, preorderNodesL, List.all_cons,
        List.all_append, List.all_nil, Bool.and_true, Bool.and_eq_true, Node.marker] at g1 ⊢
      refine ⟨?_, g1⟩
      cases m <;> rfl
  | .functionDef m fname args body, c => by
      have g1 := annotateNode_allMarked args (assignMarker m c).2
      have g2 := annotateList_allMarked body (annotateNode (assignMarker m c).2 args).2
      simp only [annotateNode, annotateList]
      simp only [allMarkedN, allMarkedL, preorderNodes, preorderNodesL, List.all_cons,
        List.all_append, List.all_nil, Bool.and_true, Bool.and_eq_true, Node.marker] at g1 g2 ⊢
      refine ⟨?_, ⟨g1, g2⟩⟩
      cases m <;> rfl
  | .argumentsNode m args, c => by
      have g1 := annotateList_allMarked args (assignMarker m c).2
      simp only [annotateNode, annotateList]
      simp only [allMarkedN, allMarkedL, preorderNodes, preorderNodesL, List.all_cons,
        List.all_append, List.all_nil, Bool.and_true, Bool.and_eq_true, Node.marker] at g1 ⊢
      refine ⟨?_, g1⟩
      cases m <;> rfl
  | .argNode m aname, c => by
      simp only [annotateNode, allMarkedN, preorderNodes, List.all_cons, List.all_nil,
        Bool.and_true, Node.marker]
      cases m <;> rfl
  | .ifStmt m test body orelse, c => by
      have g1 := annotateNode_allMarked test (assignMarker m c).2
      have g2 := annotateList_allMarked body (annotateNode (assignMarker m c).2 test).2
      have g3 := annotateList_allMarked orelse (annotateList (annotateNode (assignMarker m c).2 test).2 body).2
      simp only [annotateNode, annotateList]
      simp only [allMarkedN, allMarkedL, preorderNodes, preorderNodesL, List.all_cons,
        List.all_append, List.all_nil, Bool.and_true, Bool.and_eq_true, Node.marker] at g1 g2 g3 ⊢
      refine ⟨?_, ⟨⟨g1, g2⟩, g3⟩⟩
      cases m <;> rfl
  | .forStmt m target iter body orelse, c => by
      have g1 := annotateNode_allMarked target (assignMarker m c).2
      have g2 := annotateNode_allMarked iter (annotateNode (assignMarker m c).2 target).2
      have g3 := annotateList_allMarked body (annotateNode (annotateNode (assignMarker m c).2 target).2 iter).2
      have g4 := annotateList_allMarked orelse (annotateList (annotateNode (annotateNode (assignMarker m c).2 target).2 iter).2 body).2
      simp only [annotateNode, annotateList]
      simp only [allMarkedN, allMarkedL, preorderNodes, preorderNodesL, List.all_cons,
        List.all_append, List.all_nil, Bool.and_true, Bool.and_eq_true, Node.marker] at g1 g2 g3 g4 ⊢
      refine ⟨?_, ⟨⟨⟨g1, g2⟩, g3⟩, g4⟩⟩
      cases m <;> rfl
  | .whileStmt m test body orelse, c => by
      have g1 := annotateNode_allMarked test (assignMarker m c).2
      have g2 := annotateList_allMarked body (annotateNode (assignMarker m c).2 test).2
      have g3 := annotateList_allMarked orelse (annotateList (annotateNode (assignMarker m c).2 test).2 body).2
      simp only [annotateNode, annotateList]
      simp only [allMarkedN, allMarkedL, preorderNodes, preorderNodesL, List.all_cons,
        List.all_append, List.all_nil, Bool.and_true, Bool.and_eq_true, Node.marker] at g1 g2 g3 ⊢
      refine ⟨?_, ⟨⟨g1, g2⟩, g3⟩⟩
      cases m <;> rfl
  | .assign m targets value, c => by
      have g1 := annotateList_allMarked targets (assignMarker m c).2
      have g2 := annotateNode_allMarked value (annotateList (assignMarker m c).2 targets).2
      simp only [annotateNode, annotateList]
      simp only [allMarkedN, allMarkedL, preorderNodes, preorderNodesL, List.all_cons,
        List.all_append, List.all_nil, Bool.and_true, Bool.and_eq_true, Node.marker] at g1 g2 ⊢
      refine ⟨?_, ⟨g1, g2⟩⟩
      cases m <;> rfl
  | .exprStmt m value, c => by
      have g1 := annotateNode_allMarked value (assignMarker m c).2
      simp only [annotateNode, annotateList]
      simp only [allMarkedN, allMarkedL, preorderNodes, preorderNodesL, List.all_cons,
        List.all_append, List.all_nil, Bool.and_true, Bool.and_eq_true, Node.marker] at g1 ⊢
      refine ⟨?_, g1⟩
      cases m <;> rfl
  | .importFrom m md names level, c => by
      have g1 := annotateList_allMarked names (assignMarker m c).2
      simp only [annotateNode, annotateList]
      simp only [allMarkedN, allMarkedL, preorderNodes, preorderNodesL, List.all_cons,
        List.all_append, List.all_nil, Bool.and_true, Bool.and_eq_true, Node.marker] at g1 ⊢
      refine ⟨?_, g1⟩
      cases m <;> rfl
  | .aliasNode m aname asname, c => by
      simp only [annotateNode, allMarkedN, preorderNodes, List.all_cons, List.all_nil,
        Bool.and_true, Node.marker]
      cases m <;> rfl
  | .passStmt m, c => by
      simp only [annotateNode, allMarkedN, preorderNodes, List.all_cons, List.all_nil,
        Bool.and_true, Node.marker]
      cases m <;> rfl
  | .nameNode m id ctx, c => by
      have g1 := annotateNode_allMarked ctx (assignMarker m c).2
      simp only [annotateNode, annotateList]
      simp only [allMarkedN, allMarkedL, preorderNodes, preorderNodesL, List.all_cons,
        List.all_append, List.all_nil, Bool.and_true, Bool.and_eq_true, Node.marker] at g1 ⊢
      refine ⟨?_, g1⟩
      cases m <;> rfl
  | .load m, c => by
      simp only [annotateNode, allMarkedN, preorderNodes, List.all_cons, List.all_nil,
        Bool.and_true, Node.marker]
      cases m <;> rfl
  | .store m, c => by
      simp only [annotateNode, allMarkedN, preorderNodes, List.all_cons, List.all_nil,
        Bool.and_true, Node.marker]
      cases m <;> rfl
  | .numNode m n, c => by
      simp only [annotateNode, allMarkedN, preorderNodes, List.all_cons, List.all_nil,
        Bool.and_true, Node.marker]
      cases m <;> rfl
  | .strNode m s, c => by
      simp only [annotateNode, allMarkedN, preorderNodes, List.all_cons, List.all_nil,
        Bool.and_true, Node.marker]
      cases m <;> rfl
  | .binOp m left op right, c => by
      have g1 := annotateNode_allMarked left (assignMarker m c).2
      have g2 := annotateNode_allMarked op (annotateNode (assignMarker m c).2 left).2
      have g3 := annotateNode_allMarked right (annotateNode (annotateNode (assignMarker m c).2 left).2 op).2
      simp only [annotateNode, annotateList]
      simp only [allMarkedN, allMarkedL, preorderNodes, preorderNodesL, List.all_cons,
        List.all_append, List.all_nil, Bool.and_true, Bool.and_eq_true, Node.marker] at g1 g2 g3 ⊢
      refine ⟨?_, ⟨⟨g1, g2⟩, g3⟩⟩
      cases m <;> rfl
  | .opAdd m, c => by
      simp only [annotateNode, allMarkedN, preorderNodes, List.all_cons, List.all_nil,
        Bool.and_true, Node.marker]
      cases m <;> rfl
  | .opSub m, c => by
      simp only [annotateNode, allMarkedN, preorderNodes, List.all_cons, List.all_nil,
        Bool.and_true, Node.marker]
      cases m <;> rfl
  | .opMult m, c => by
      simp only [annotateNode, allMarkedN, preorderNodes, List.all_cons, List.all_nil,
        Bool.and_true, Node.marker]
      cases m <;> rfl
  | .tupleNode m elts ctx, c => by
      have g1 := annotateList_allMarked elts (assignMarker m c).2
      have g2 := annotateNode_allMarked ctx (annotateList (assignMarker m c).2 elts).2
      simp only [annotateNode, annotateList]
      simp only [allMarkedN, allMarkedL, preorderNodes, preorderNodesL, List.all_cons,
        List.all_append, List.all_nil, Bool.and_true, Bool.and_eq_true, Node.marker] at g1 g2 ⊢
      refine ⟨?_, ⟨g1, g2⟩⟩
      cases m <;> rfl
  | .unknown m tag children, c => by
      have g1 := annotateList_allMarked children (assignMarker m c).2
      simp only [annotateNode, annotateList]
      simp only [allMarkedN, allMarkedL, preorderNodes, preorderNodesL, List.all_cons,
        List.all_append, List.all_nil, Bool.and_true, Bool.and_eq_true, Node.marker] at g1 ⊢
      refine ⟨?_, g1⟩
      cases m <;> rfl
  | .tracking m sets, c => by
      simp only [annotateNode, allMarkedN, preorderNodes, List.all_cons, List.all_nil,
        Bool.and_true, Node.marker]
      cases m <;> rfl

/-- Forest version of `annotateNode_allMarked`. -/
theorem annotateList_allMarked : (ts : List Node) → (c : Nat) → allMarkedL (annotateList c ts).1 = true
  | [], _ => rfl
  | t :: ts, c => by
      have g1 := annotateNode_allMarked t c
      have g2 := annotateList_allMarked ts (annotateNode c t).2
      simp only [annotateList]
      simp only [allMarkedN, allMarkedL, preorderNodesL, List.all_append,
        Bool.and_eq_true] at g1 g2 ⊢
      exact ⟨g1, g2⟩

end

mutual

/-- Source `MarkerNodeTransformer` leaves a fully marked tree untouched and does
not advance its counter: a second annotation pass is a no-op. -/
theorem annotateNode_noop : (t : Node) → (c : Nat) → allMarkedN t = true →
    annotateNode c t = (t, c)
  | .module m body, c, h => by
      cases m with
      | none => simp [allMarkedN, preorderNodes, Node.marker] at h
      | some k =>
        simp only [allMarkedN, allMarkedL, preorderNodes, preorderNodesL, List.all_cons,
          List.all_append, List.all_nil, Bool.and_true, Bool.and_eq_true, Node.marker,
          Option.isSome_some, true_and] at h
        have hh1 := h
        simp only [annotateNode, annotateList, assignMarker, annotateList_noop body c hh1]
  | .functionDef m fname args body, c, h => by
      cases m with
      | none => simp [allMarkedN, preorderNodes, Node.marker] at h
      | some k =>
        simp only [allMarkedN, allMarkedL, preorderNodes, preorderNodesL, List.all_cons,
          List.all_append, List.all_nil, Bool.and_true, Bool.and_eq_true, Node.marker,
          Option.isSome_some, true_and] at h
        obtain ⟨hh1, hh2⟩ := h
        simp only [annotateNode, annotateList, assignMarker, annotateNode_noop args c hh1, annotateList_noop body c hh2]
  | .argumentsNode m args, c, h => by
      cases m with
      | none => simp [allMarkedN, preorderNodes, Node.marker] at h
      | some k =>
        simp only [allMarkedN, allMarkedL, preorderNodes, preorderNodesL, List.all_cons,
          List.all_append, List.all_nil, Bool.and_true, Bool.and_eq_true, Node.marker,
          Option.isSome_some, true_and] at h
        have hh1 := h
        simp only [annotateNode, annotateList, assignMarker, annotateList_noop args c hh1]
  | .argNode m aname, c, h => by
      cases m with
      | none => simp [allMarkedN, preorderNodes, Node.marker] at h
      | some k => rfl
  | .ifStmt m test body orelse, c, h => by
      cases m with
      | none => simp [allMarkedN, preorderNodes, Node.marker] at h
      | some k =>
        simp only [allMarkedN, allMarkedL, preorderNodes, preorderNodesL, List.all_cons,
          List.all_append, List.all_nil, Bool.and_true, Bool.and_eq_true, Node.marker,
          Option.isSome_some, true_and] at h
        obtain ⟨⟨hh1, hh2⟩, hh3⟩ := h
        simp only [annotateNode, annotateList, assignMarker, annotateNode_noop test c hh1, annotateList_noop body c hh2, annotateList_noop orelse c hh3]
  | .forStmt m target iter body orelse, c, h => by
      cases m with
      | none => simp [allMarkedN, preorderNodes, Node.marker] at h
      | some k =>
        simp only [allMarkedN, allMarkedL, preorderNodes, preorderNodesL, List.all_cons,
          List.all_append, List.all_nil, Bool.and_true, Bool.and_eq_true, Node.marker,
          Option.isSome_some, true_and] at h
        obtain ⟨⟨⟨hh1, hh2⟩, hh3⟩, hh4⟩ := h
        simp only [annotateNode, annotateList, assignMarker, annotateNode_noop target c hh1, annotateNode_noop iter c hh2, annotateList_noop body c hh3, annotateList_noop orelse c hh4]
  | .whileStmt m test body orelse, c, h => by
      cases m with
      | none => simp [allMarkedN, preorderNodes, Node.marker] at h
      | some k =>
        simp only [allMarkedN, allMarkedL, preorderNodes, preorderNodesL, List.all_cons,
          List.all_append, List.all_nil, Bool.and_true, Bool.and_eq_true, Node.marker,
          Option.isSome_some, true_and] at h
        obtain ⟨⟨hh1, hh2⟩, hh3⟩ := h
        simp only [annotateNode, annotateList, assignMarker, annotateNode_noop test c hh1, annotateList_noop body c hh2, annotateList_noop orelse c hh3]
  | .assign m targets value, c, h => by
      cases m with
      | none => simp [allMarkedN, preorderNodes, Node.marker] at h
      | some k =>
        simp only [allMarkedN, allMarkedL, preorderNodes, preorderNodesL, List.all_cons,
          List.all_append, List.all_nil, Bool.and_true, Bool.and_eq_true, Node.marker,
          Option.isSome_some, true_and] at h
        obtain ⟨hh1, hh2⟩ := h
        simp only [annotateNode, annotateList, assignMarker, annotateList_noop targets c hh1, annotateNode_noop value c hh2]
  | .exprStmt m value, c, h => by
      cases m with
      | none => simp [allMarkedN, preorderNodes, Node.marker] at h
      | some k =>
        simp only [allMarkedN, allMarkedL, preorderNodes, preorderNodesL, List.all_cons,
          List.all_append, List.all_nil, Bool.and_true, Bool.and_eq_true, Node.marker,
          Option.isSome_some, true_and] at h
        have hh1 := h
        simp only [annotateNode, annotateList, assignMarker, annotateNode_noop value c hh1]
  | .importFrom m md names level, c, h => by
      cases m with
      | none => simp [allMarkedN, preorderNodes, Node.marker] at h
      | some k =>
        simp only [allMarkedN, allMarkedL, preorderNodes, preorderNodesL, List.all_cons,
          List.all_append, List.all_nil, Bool.and_true, Bool.and_eq_true, Node.marker,
          Option.isSome_some, true_and] at h
        have hh1 := h
        simp only [annotateNode, annotateList, assignMarker, annotateList_noop names c hh1]
  | .aliasNode m aname asname, c, h => by
      cases m with
      | none => simp [allMarkedN, preorderNodes, Node.marker] at h
      | some k => rfl
  | .passStmt m, c, h => by
      cases m with
      | none => simp [allMarkedN, preorderNodes, Node.marker] at h
      | some k => rfl
  | .nameNode m id ctx, c, h => by
      cases m with
      | none => simp [allMarkedN, preorderNodes, Node.marker] at h
      | some k =>
        simp only [allMarkedN, allMarkedL, preorderNodes, preorderNodesL, List.all_cons,
          List.all_append, List.all_nil, Bool.and_true, Bool.and_eq_true, Node.marker,
          Option.isSome_some, true_and] at h
        have hh1 := h
        simp only [annotateNode, annotateList, assignMarker, annotateNode_noop ctx c hh1]
  | .load m, c, h => by
      cases m with
      | none => simp [allMarkedN, preorderNodes, Node.marker] at h
      | some k => rfl
  | .store m, c, h => by
      cases m with
      | none => simp [allMarkedN, preorderNodes, Node.marker] at h
      | some k => rfl
  | .numNode m n, c, h => by
      cases m with
      | none => simp [allMarkedN, preorderNodes, Node.marker] at h
      | some k => rfl
  | .strNode m s, c, h => by
      cases m with
      | none => simp [allMarkedN, preorderNodes, Node.marker] at h
      | some k => rfl
  | .binOp m left op right, c, h => by
      cases m with
      | none => simp [allMarkedN, preorderNodes, Node.marker] at h
      | some k =>
        simp only [allMarkedN, allMarkedL, preorderNodes, preorderNodesL, List.all_cons,
          List.all_append, List.all_nil, Bool.and_true, Bool.and_eq_true, Node.marker,
          Option.isSome_some, true_and] at h
        obtain ⟨⟨hh1, hh2⟩, hh3⟩ := h
        simp only [annotateNode, annotateList, assignMarker, annotateNode_noop left c hh1, annotateNode_noop op c hh2, annotateNode_noop right c hh3]
  | .opAdd m, c, h => by
      cases m with
      | none => simp [allMarkedN, preorderNodes, Node.marker] at h
      | some k => rfl
  | .opSub m, c, h => by
      cases m with
      | none => simp [allMarkedN, preorderNodes, Node.marker] at h
      | some k => rfl
  | .opMult m, c, h => by
      cases m with
      | none => simp [allMarkedN, preorderNodes, Node.marker] at h
      | some k => rfl
  | .tupleNode m elts ctx, c, h => by
      cases m with
      | none => simp [allMarkedN, preorderNodes, Node.marker] at h
      | some k =>
        simp only [allMarkedN, allMarkedL, preorderNodes, preorderNodesL, List.all_cons,
          List.all_append, List.all_nil, Bool.and_true, Bool.and_eq_true, Node.marker,
          Option.isSome_some, true_and] at h
        obtain ⟨hh1, hh2⟩ := h
        simp only [annotateNode, annotateList, assignMarker, annotateList_noop elts c hh1, annotateNode_noop ctx c hh2]
  | .unknown m tag children, c, h => by
      cases m with
      | none => simp [allMarkedN, preorderNodes, Node.marker] at h
      | some k =>
        simp only [allMarkedN, allMarkedL, preorderNodes, preorderNodesL, List.all_cons,
          List.all_append, List.all_nil, Bool.and_true, Bool.and_eq_true, Node.marker,
          Option.isSome_some, true_and] at h
        have hh1 := h
        simp only [annotateNode, annotateList, assignMarker, annotateList_noop children c hh1]
  | .tracking m sets, c, h => by
      cases m with
      | none => simp [allMarkedN, preorderNodes, Node.marker] at h
      | some k => rfl

/-- Forest version of `annotateNode_noop`. -/
theorem annotateList_noop : (ts : List Node) → (c : Nat) → allMarkedL ts = true →
    annotateList c ts = (ts, c)
  | [], _, _ => rfl
  | t :: ts, c, h => by
      simp only [allMarkedL, preorderNodesL, List.all_append, Bool.and_eq_true] at h
      obtain ⟨hh1, hh2⟩ := h
      simp only [annotateList, annotateNode_noop t c hh1, annotateList_noop ts c hh2]

end

/-- Claim C1.  For every tree `T` (fresh from the parser, hence unmarked)
with `n` nodes, `annotate(T)` assigns exactly the markers `0 … n-1`, each
to exactly one node, in deterministic pre-order (parent before children,
children in declaration order); the session counter records `n`; and
since a node that already carries a marker is skipped, a second
annotation pass over the same tree returns it unchanged. -/
theorem C1_annotate_preorder_markers (t : Node) (h : unmarkedN t = true) :
    preorderMarkers (annotate t).1 = (List.range (sizeN t)).map some
      ∧ (annotate t).2 = sizeN t
      ∧ annotate (annotate t).1 = ((annotate t).1, 0) := by
  obtain ⟨h1, h2⟩ := annotateNode_spec t 0 h
  refine ⟨?_, by simpa [annotate] using h2, ?_⟩
  · simpa [annotate, preorderMarkers, markerRange, List.range_eq_range'] using h1
  · exact annotateNode_noop _ 0 (annotateNode_allMarked t 0)

/-- Witness for C1 on the concrete module `if x: y = 1`. -/
theorem C1_annotate_preorder_markers_witness :
    unmarkedN egIfTree = true
      ∧ (preorderMarkers (annotate egIfTree).1 = (List.range (sizeN egIfTree)).map some
        ∧ (annotate egIfTree).2 = sizeN egIfTree
        ∧ annotate (annotate egIfTree).1 = ((annotate egIfTree).1, 0)) :=
  ⟨by decide, C1_annotate_preorder_markers egIfTree (by decide)⟩

/-- Claim C2 (the code falls short of it).  `visit_BinOp` renders its
operands without parentheses, so the structurally different trees
`(a + b) * c` and `a + b * c` generate the very same text `"a + b * c"`,
although their values differ (at `a = b = c = 2`: 8 against 6).  No
parser can therefore map both generated texts back to semantically
equivalent trees: the round-trip law fails on `(a + b) * c`. -/
theorem C2_binop_renders_without_parens :
    to_source egMulOfAdd = .ok "a + b * c"
      ∧ to_source egAddOfMul = .ok "a + b * c"
      ∧ evalExpr (fun _ => 2) egMulOfAdd = some 8
      ∧ evalExpr (fun _ => 2) egAddOfMul = some 6 :=
  ⟨rfl, rfl, rfl, rfl⟩

/-- Claim C3, counterexample.  A tree containing the unregistered kind
`Await` does not abort with an "unsupported construct" error: generation
silently succeeds, rendering just the node's children. -/
theorem C3_counterexample_silent_output : to_source egUnknownTree = .ok "x" := rfl

/-- Claim C3, amended.  A node kind with no registered renderer falls
through to `generic_visit`, which silently renders only the node's
children — whatever the unregistered kind's name, the conversion
produces output instead of failing. -/
theorem C3_unknown_kind_silently_rendered (tag : String) (m : Option Nat) :
    to_source (.module none [.exprStmt none (.unknown m tag [.nameNode none "x" (.load none)])])
      = .ok "x" := rfl

/-- Claim C7.  Around one test: `startTest` snapshots the session's
`CoveredSet` and clears it; the test's execution adds `during`;
`stopTest` records the fingerprint `during ∪ baseline` for the test and
merges the snapshot back, so the session set ends as the pre-test set
united with the markers covered during the test. -/
theorem C7_fingerprint_protocol (r : CoverageTestResult) (test : Nat) (during : Finset Nat) :
    (((r.startTest).runTest during).stopTest test).testCoveredNodes
        = (test, during ∪ r.alwaysCoveredNodes) :: r.testCoveredNodes
      ∧ (((r.startTest).runTest during).stopTest test).injectorCovered
        = r.injectorCovered ∪ during := by
  constructor
  · simp [CoverageTestResult.startTest, CoverageTestResult.runTest, CoverageTestResult.stopTest]
  · simp [CoverageTestResult.startTest, CoverageTestResult.runTest, CoverageTestResult.stopTest,
      Finset.union_comm]

/-!  Structural helpers about the traversal and the instrumenter.  -/

theorem preorderNodesL_append (l1 l2 : List Node) :
    preorderNodesL (l1 ++ l2) = preorderNodesL l1 ++ preorderNodesL l2 := by
  induction l1 with
  | nil => rfl
  | cons t ts ih => simp [preorderNodesL, ih]

/-- A subtree's pre-order listing starts with the subtree's root. -/
theorem preorderNodes_cons (t : Node) : preorderNodes t = t :: (preorderNodes t).tail := by
  cases t <;> rfl

/-- Source `generic_visit` keeps the node's own marker. -/
theorem genericVisit_marker (t : Node) : (genericVisit t).marker = t.marker := by
  cases t <;> rfl

/-- The subtree marker set splits into the root's marker and the
descendants' markers. -/
theorem treeMarkerSet_eq (t : Node) :
    treeMarkerSet t = optMarkerSet t.marker ∪ descMarkers t := by
  unfold treeMarkerSet descMarkers
  rw [preorderNodes_cons t]
  cases hm : t.marker with
  | none => simp [List.filterMap_cons, hm, optMarkerSet]
  | some k =>
      simp [List.filterMap_cons, hm, optMarkerSet, List.toFinset_cons,
        Finset.insert_eq]

/-- Equal head images let filter-map equality descend to the tails. -/
theorem filterMap_tail_eq {α β : Type} (f : α → Option β) (a b : α) (l1 l2 : List α)
    (hab : f a = f b) (h : (a :: l1).filterMap f = (b :: l2).filterMap f) :
    l1.filterMap f = l2.filterMap f := by
  rw [List.filterMap_cons, List.filterMap_cons, hab] at h
  cases hfb : f b with
  | none => simpa [hfb] using h
  | some v => simpa [hfb] using h

/-- A `map f = map some r` image makes `filterMap f` recover `r` exactly. -/
theorem filterMap_of_map_some {α β : Type} (f : α → Option β) :
    (l : List α) → (r : List β) → l.map f = r.map some → l.filterMap f = r
  | [], [], _ => rfl
  | [], b :: r, h => by simp at h
  | a :: l, [], h => by simp at h
  | a :: l, b :: r, h => by
      simp only [List.map_cons, List.cons.injEq] at h
      simp [List.filterMap_cons, h.1, filterMap_of_map_some f l r h.2]

/-- The injected tracking statement (either arm of
`generate_coverage_node`) is a tracking node without a marker. -/
theorem generateCoverageNode_eq (t : Node) :
    generateCoverageNode t
      = .tracking none (if isBranchNode t then branchCoverageSet t else plainCoverageSet t) := by
  unfold generateCoverageNode
  split <;> simp_all

/-- The branch subtraction loop only removes markers. -/
theorem branchCoverageSet_subset (t : Node) : branchCoverageSet t ⊆ plainCoverageSet t := by
  unfold branchCoverageSet
  generalize plainCoverageSet t = init
  induction (bodyField t) generalizing init with
  | nil => exact fun x hx => hx
  | cons el rest ih =>
      simp only [List.foldl_cons]
      intro x hx
      by_cases hm : el.marker.isSome
      · simp only [hm, if_true] at hx
        have := ih (init \ (optMarkerSet el.marker ∪ descMarkers el)) hx
        exact (Finset.sdiff_subset) this
      · simp only [hm, if_false] at hx
        exact ih init hx

/-- Source `inject_inside_visit`'s body edit adds only a marker-less tracking
statement: the marker sequence of the subtree is untouched. -/
theorem injectInsideTrack_markers (X : Node) :
    (preorderNodes (injectInsideTrack X)).filterMap Node.marker
      = (preorderNodes X).filterMap Node.marker := by
  cases X <;> simp [injectInsideTrack, preorderNodes, preorderNodesL, List.filterMap_cons,
    List.filterMap_append, Node.marker]

/-- Source `visit` on a statement keeps the subtree's marker sequence: the
injected tracking statements carry no marker (stated relative to the
marker preservation of the statement's own `generic_visit`). -/
theorem visitStmt_markers_of (dh : Bool) (s : Node)
    (hgen : (preorderNodes (genericVisit s)).filterMap Node.marker
      = (preorderNodes s).filterMap Node.marker) :
    (preorderNodesL (visitStmt dh s)).filterMap Node.marker
      = (preorderNodes s).filterMap Node.marker := by
  unfold visitStmt
  by_cases hd : isDefinitionNode s
  · simp [hd, preorderNodesL, List.filterMap_append, injectInsideTrack_markers, hgen]
  · by_cases hs : isStatementNode s || isBranchNode s
    · simp only [hd, hs, if_true, if_false]
      by_cases he : is_future_statement (genericVisit s) || (dh && isDocstringExpr (genericVisit s))
      · simp [he, preorderNodesL, List.filterMap_append, hgen]
      · simp [he, preorderNodesL, List.filterMap_append, generateCoverageNode_eq,
          preorderNodes, List.filterMap_cons, Node.marker, hgen]
    · simp [hd, hs, preorderNodesL, List.filterMap_append, hgen]
mutual

/-- Instrumentation preserves the pre-order sequence of markers: the
inserted tracking statements carry none, and every original node keeps
its own. -/
theorem genericVisit_markers : (t : Node) →
    (preorderNodes (genericVisit t)).filterMap Node.marker
      = (preorderNodes t).filterMap Node.marker
  | .module m body => by
      simp [genericVisit, preorderNodes, List.filterMap_cons, List.filterMap_append,
        Node.marker, transformBody_markers true body]
  | .functionDef m fname args body => by
      simp [genericVisit, preorderNodes, List.filterMap_cons, List.filterMap_append,
        Node.marker, genericVisit_markers args, transformBody_markers true body]
  | .argumentsNode m args => by
      simp [genericVisit, preorderNodes, List.filterMap_cons, List.filterMap_append,
        Node.marker, genericList_markers args]
  | .argNode m aname => rfl
  | .ifStmt m test body orelse => by
      simp [genericVisit, preorderNodes, List.filterMap_cons, List.filterMap_append,
        Node.marker, genericVisit_markers test, transformBody_markers false body, transformBody_markers false orelse]
  | .forStmt m target iter body orelse => by
      simp [genericVisit, preorderNodes, List.filterMap_cons, List.filterMap_append,
        Node.marker, genericVisit_markers target, genericVisit_markers iter, transformBody_markers false body, transformBody_markers false orelse]
  | .whileStmt m test body orelse => by
      simp [genericVisit, preorderNodes, List.filterMap_cons, List.filterMap_append,
        Node.marker, genericVisit_markers test, transformBody_markers false body, transformBody_markers false orelse]
  | .assign m targets value => by
      simp [genericVisit, preorderNodes, List.filterMap_cons, List.filterMap_append,
        Node.marker, genericList_markers targets, genericVisit_markers value]
  | .exprStmt m value => by
      simp [genericVisit, preorderNodes, List.filterMap_cons, List.filterMap_append,
        Node.marker, genericVisit_markers value]
  | .importFrom m md names level => by
      simp [genericVisit, preorderNodes, List.filterMap_cons, List.filterMap_append,
        Node.marker, genericList_markers names]
  | .aliasNode m aname asname => rfl
  | .passStmt m => rfl
  | .nameNode m id ctx => by
      simp [genericVisit, preorderNodes, List.filterMap_cons, List.filterMap_append,
        Node.marker, genericVisit_markers ctx]
  | .load m => rfl
  | .store m => rfl
  | .numNode m n => rfl
  | .strNode m s => rfl
  | .binOp m left op right => by
      simp [genericVisit, preorderNodes, List.filterMap_cons, List.filterMap_append,
        Node.marker, genericVisit_markers left, genericVisit_markers op, genericVisit_markers right]
  | .opAdd m => rfl
  | .opSub m => rfl
  | .opMult m => rfl
  | .tupleNode m elts ctx => by
      simp [genericVisit, preorderNodes, List.filterMap_cons, List.filterMap_append,
        Node.marker, genericList_markers elts, genericVisit_markers ctx]
  | .unknown m tag children => by
      simp [genericVisit, preorderNodes, List.filterMap_cons, List.filterMap_append,
        Node.marker, transformBody_markers false children]
  | .tracking m sets => rfl

/-- Body instrumentation preserves the forest's marker sequence. -/
theorem transformBody_markers : (dh : Bool) → (ts : List Node) →
    (preorderNodesL (transformBody dh ts)).filterMap Node.marker
      = (preorderNodesL ts).filterMap Node.marker
  | _, [] => rfl
  | dh, s :: rest => by
      rw [transformBody_cons, preorderNodesL_append, List.filterMap_append,
        visitStmt_markers_of dh s (genericVisit_markers s),
        transformBody_markers false rest]
      simp [preorderNodesL, List.filterMap_append]

/-- Non-body list fields likewise. -/
theorem genericList_markers : (ts : List Node) →
    (preorderNodesL (genericList ts)).filterMap Node.marker
      = (preorderNodesL ts).filterMap Node.marker
  | [] => rfl
  | t :: ts => by
      simp [genericList, preorderNodesL, List.filterMap_append,
        genericVisit_markers t, genericList_markers ts]

end

/-- Instrumentation of a subtree does not change its descendant marker set. -/
theorem descMarkers_genericVisit (t : Node) : descMarkers (genericVisit t) = descMarkers t := by
  have h := genericVisit_markers t
  rw [preorderNodes_cons (genericVisit t), preorderNodes_cons t] at h
  have h2 := filterMap_tail_eq Node.marker (genericVisit t) t _ _ (genericVisit_marker t) h
  unfold descMarkers
  exact congrArg List.toFinset h2

/-- Instrumentation preserves the whole subtree marker set. -/
theorem treeMarkerSet_genericVisit (t : Node) : treeMarkerSet (genericVisit t) = treeMarkerSet t :=
  congrArg List.toFinset (genericVisit_markers t)

/-- Tracking statements inside one instrumented statement record only
markers of that statement's own (original) subtree.  Stated relative to
the same property of the statement's `generic_visit`. -/
theorem visitStmt_sets_sub (dh : Bool) (s : Node)
    (hN : ∀ S ∈ trackingSets (genericVisit s), S ⊆ treeMarkerSet s) :
    ∀ S ∈ trackingSetsL (visitStmt dh s), S ⊆ treeMarkerSet s := by
  intro S hS
  unfold visitStmt at hS
  by_cases hd : isDefinitionNode s
  · simp only [hd, if_true] at hS
    cases s <;> simp [isDefinitionNode] at hd
    rename_i m f args body
    simp only [genericVisit, injectInsideTrack, trackingSetsL, trackingSets, preorderNodesL,
      preorderNodes, List.filterMap_cons, List.filterMap_append, List.filterMap_nil,
      trackingSetOf, List.append_nil, Node.marker, List.mem_cons, List.mem_append,
      List.not_mem_nil, or_false, false_or] at hS ⊢
    rcases hS with h | h | h
    · -- tracking statements inside the argument list
      refine hN S ?_
      simp only [genericVisit, trackingSets, preorderNodes, List.filterMap_cons,
        List.filterMap_append, trackingSetOf, List.mem_append, Node.marker]
      exact Or.inl h
    · -- the inserted `.add(marker)` statement
      subst h
      rw [treeMarkerSet_eq]
      exact Finset.subset_union_left
    · -- tracking statements produced deeper inside the body
      refine hN S ?_
      simp only [genericVisit, trackingSets, preorderNodes, List.filterMap_cons,
        List.filterMap_append, trackingSetOf, List.mem_append, Node.marker]
      exact Or.inr h
  · by_cases hs : isStatementNode s || isBranchNode s
    · simp only [hd, hs, if_true, if_false] at hS
      by_cases he : is_future_statement (genericVisit s) || (dh && isDocstringExpr (genericVisit s))
      · simp only [he, if_true] at hS
        refine hN S ?_
        simpa [trackingSetsL, trackingSets, preorderNodesL, List.append_nil] using hS
      · simp only [he, if_false] at hS
        rw [generateCoverageNode_eq] at hS
        simp only [trackingSetsL, preorderNodesL, preorderNodes, List.filterMap_cons,
          List.filterMap_append, List.filterMap_nil, trackingSetOf, List.append_nil,
          List.mem_cons, List.mem_append, List.not_mem_nil, or_false, false_or] at hS
        rcases hS with h | h
        · subst h
          have hplain : plainCoverageSet (genericVisit s) = treeMarkerSet s := by
            rw [plainCoverageSet, genericVisit_marker, descMarkers_genericVisit,
              ← treeMarkerSet_eq]
          split
          · exact (branchCoverageSet_subset (genericVisit s)).trans (le_of_eq hplain)
          · exact le_of_eq hplain
        · refine hN S ?_
          simpa [trackingSets] using h
    · simp only [hd, hs, if_false] at hS
      refine hN S ?_
      simpa [trackingSetsL, trackingSets, preorderNodesL, List.append_nil] using hS
mutual

/-- Every tracking statement produced by instrumenting a tracking-free
subtree records only markers belonging to that subtree. -/
theorem trackingSets_sub_node : (t : Node) → trackingFree t = true →
    ∀ S ∈ trackingSets (genericVisit t), S ⊆ treeMarkerSet t
  | .module m body, hfree => by
      simp only [trackingFree, preorderNodes, List.all_cons, List.all_append,
        Bool.and_eq_true, isTrackingB, Bool.not_false, eq_self_iff_true,
        true_and] at hfree
      have hf1 := hfree
      intro S hS
      simp only [genericVisit, trackingSets, preorderNodes, List.filterMap_cons,
        List.filterMap_append, trackingSetOf, List.mem_append] at hS
      have h := hS
      exact (trackingSets_sub_body true body hf1 S h).trans
          (by
            intro x hx
            simp only [treeMarkerSet, treeMarkerSetL, List.mem_toFinset, List.mem_filterMap,
              preorderNodes, preorderNodesL, List.mem_cons, List.mem_append] at hx ⊢
            obtain ⟨u, hu, hmu⟩ := hx
            exact ⟨u, by tauto, hmu⟩)
  | .functionDef m fname args body, hfree => by
      simp only [trackingFree, preorderNodes, List.all_cons, List.all_append,
        Bool.and_eq_true, isTrackingB, Bool.not_false, eq_self_iff_true,
        true_and] at hfree
      obtain ⟨hf1, hf2⟩ := hfree
      intro S hS
      simp only [genericVisit, trackingSets, preorderNodes, List.filterMap_cons,
        List.filterMap_append, trackingSetOf, List.mem_append] at hS
      rcases hS with (h) | h
      · exact (trackingSets_sub_node args hf1 S h).trans
          (by
            intro x hx
            simp only [treeMarkerSet, treeMarkerSetL, List.mem_toFinset, List.mem_filterMap,
              preorderNodes, preorderNodesL, List.mem_cons, List.mem_append] at hx ⊢
            obtain ⟨u, hu, hmu⟩ := hx
            exact ⟨u, by tauto, hmu⟩)
      · exact (trackingSets_sub_body true body hf2 S h).trans
          (by
            intro x hx
            simp only [treeMarkerSet, treeMarkerSetL, List.mem_toFinset, List.mem_filterMap,
              preorderNodes, preorderNodesL, List.mem_cons, List.mem_append] at hx ⊢
            obtain ⟨u, hu, hmu⟩ := hx
            exact ⟨u, by tauto, hmu⟩)
  | .argumentsNode m args, hfree => by
      simp only [trackingFree, preorderNodes, List.all_cons, List.all_append,
        Bool.and_eq_true, isTrackingB, Bool.not_false, eq_self_iff_true,
        true_and] at hfree
      have hf1 := hfree
      intro S hS
      simp only [genericVisit, trackingSets, preorderNodes, List.filterMap_cons,
        List.filterMap_append, trackingSetOf, List.mem_append] at hS
      have h := hS
      exact (trackingSets_sub_genericList args hf1 S h).trans
          (by
            intro x hx
            simp only [treeMarkerSet, treeMarkerSetL, List.mem_toFinset, List.mem_filterMap,
              preorderNodes, preorderNodesL, List.mem_cons, List.mem_append] at hx ⊢
            obtain ⟨u, hu, hmu⟩ := hx
            exact ⟨u, by tauto, hmu⟩)
  | .argNode m aname, _ => by
      intro S hS
      simp [genericVisit, trackingSets, preorderNodes, trackingSetOf] at hS
  | .ifStmt m test body orelse, hfree => by
      simp only [trackingFree, preorderNodes, List.all_cons, List.all_append,
        Bool.and_eq_true, isTrackingB, Bool.not_false, eq_self_iff_true,
        true_and] at hfree
      obtain ⟨⟨hf1, hf2⟩, hf3⟩ := hfree
      intro S hS
      simp only [genericVisit, trackingSets, preorderNodes, List.filterMap_cons,
        List.filterMap_append, trackingSetOf, List.mem_append] at hS
      rcases hS with ((h) | h) | h
      · exact (trackingSets_sub_node test hf1 S h).trans
          (by
            intro x hx
            simp only [treeMarkerSet, treeMarkerSetL, List.mem_toFinset, List.mem_filterMap,
              preorderNodes, preorderNodesL, List.mem_cons, List.mem_append] at hx ⊢
            obtain ⟨u, hu, hmu⟩ := hx
            exact ⟨u, by tauto, hmu⟩)
      · exact (trackingSets_sub_body false body hf2 S h).trans
          (by
            intro x hx
            simp only [treeMarkerSet, treeMarkerSetL, List.mem_toFinset, List.mem_filterMap,
              preorderNodes, preorderNodesL, List.mem_cons, List.mem_append] at hx ⊢
            obtain ⟨u, hu, hmu⟩ := hx
            exact ⟨u, by tauto, hmu⟩)
      · exact (trackingSets_sub_body false orelse hf3 S h).trans
          (by
            intro x hx
            simp only [treeMarkerSet, treeMarkerSetL, List.mem_toFinset, List.mem_filterMap,
              preorderNodes, preorderNodesL, List.mem_cons, List.mem_append] at hx ⊢
            obtain ⟨u, hu, hmu⟩ := hx
            exact ⟨u, by tauto, hmu⟩)
  | .forStmt m target iter body orelse, hfree => by
      simp only [trackingFree, preorderNodes, List.all_cons, List.all_append,
        Bool.and_eq_true, isTrackingB, Bool.not_false, eq_self_iff_true,
        true_and] at hfree
      obtain ⟨⟨⟨hf1, hf2⟩, hf3⟩, hf4⟩ := hfree
      intro S hS
      simp only [genericVisit, trackingSets, preorderNodes, List.filterMap_cons,
        List.filterMap_append, trackingSetOf, List.mem_append] at hS
      rcases hS with (((h) | h) | h) | h
      · exact (trackingSets_sub_node target hf1 S h).trans
          (by
            intro x hx
            simp only [treeMarkerSet, treeMarkerSetL, List.mem_toFinset, List.mem_filterMap,
              preorderNodes, preorderNodesL, List.mem_cons, List.mem_append] at hx ⊢
            obtain ⟨u, hu, hmu⟩ := hx
            exact ⟨u, by tauto, hmu⟩)
      · exact (trackingSets_sub_node iter hf2 S h).trans
          (by
            intro x hx
            simp only [treeMarkerSet, treeMarkerSetL, List.mem_toFinset, List.mem_filterMap,
              preorderNodes, preorderNodesL, List.mem_cons, List.mem_append] at hx ⊢
            obtain ⟨u, hu, hmu⟩ := hx
            exact ⟨u, by tauto, hmu⟩)
      · exact (trackingSets_sub_body false body hf3 S h).trans
          (by
            intro x hx
            simp only [treeMarkerSet, treeMarkerSetL, List.mem_toFinset, List.mem_filterMap,
              preorderNodes, preorderNodesL, List.mem_cons, List.mem_append] at hx ⊢
            obtain ⟨u, hu, hmu⟩ := hx
            exact ⟨u, by tauto, hmu⟩)
      · exact (trackingSets_sub_body false orelse hf4 S h).trans
          (by
            intro x hx
            simp only [treeMarkerSet, treeMarkerSetL, List.mem_toFinset, List.mem_filterMap,
              preorderNodes, preorderNodesL, List.mem_cons, List.mem_append] at hx ⊢
            obtain ⟨u, hu, hmu⟩ := hx
            exact ⟨u, by tauto, hmu⟩)
  | .whileStmt m test body orelse, hfree => by
      simp only [trackingFree, preorderNodes, List.all_cons, List.all_append,
        Bool.and_eq_true, isTrackingB, Bool.not_false, eq_self_iff_true,
        true_and] at hfree
      obtain ⟨⟨hf1, hf2⟩, hf3⟩ := hfree
      intro S hS
      simp only [genericVisit, trackingSets, preorderNodes, List.filterMap_cons,
        List.filterMap_append, trackingSetOf, List.mem_append] at hS
      rcases hS with ((h) | h) | h
      · exact (trackingSets_sub_node test hf1 S h).trans
          (by
            intro x hx
            simp only [treeMarkerSet, treeMarkerSetL, List.mem_toFinset, List.mem_filterMap,
              preorderNodes, preorderNodesL, List.mem_cons, List.mem_append] at hx ⊢
            obtain ⟨u, hu, hmu⟩ := hx
            exact ⟨u, by tauto, hmu⟩)
      · exact (trackingSets_sub_body false body hf2 S h).trans
          (by
            intro x hx
            simp only [treeMarkerSet, treeMarkerSetL, List.mem_toFinset, List.mem_filterMap,
              preorderNodes, preorderNodesL, List.mem_cons, List.mem_append] at hx ⊢
            obtain ⟨u, hu, hmu⟩ := hx
            exact ⟨u, by tauto, hmu⟩)
      · exact (trackingSets_sub_body false orelse hf3 S h).trans
          (by
            intro x hx
            simp only [treeMarkerSet, treeMarkerSetL, List.mem_toFinset, List.mem_filterMap,
              preorderNodes, preorderNodesL, List.mem_cons, List.mem_append] at hx ⊢
            obtain ⟨u, hu, hmu⟩ := hx
            exact ⟨u, by tauto, hmu⟩)
  | .assign m targets value, hfree => by
      simp only [trackingFree, preorderNodes, List.all_cons, List.all_append,
        Bool.and_eq_true, isTrackingB, Bool.not_false, eq_self_iff_true,
        true_and] at hfree
      obtain ⟨hf1, hf2⟩ := hfree
      intro S hS
      simp only [genericVisit, trackingSets, preorderNodes, List.filterMap_cons,
        List.filterMap_append, trackingSetOf, List.mem_append] at hS
      rcases hS with (h) | h
      · exact (trackingSets_sub_genericList targets hf1 S h).trans
          (by
            intro x hx
            simp only [treeMarkerSet, treeMarkerSetL, List.mem_toFinset, List.mem_filterMap,
              preorderNodes, preorderNodesL, List.mem_cons, List.mem_append] at hx ⊢
            obtain ⟨u, hu, hmu⟩ := hx
            exact ⟨u, by tauto, hmu⟩)
      · exact (trackingSets_sub_node value hf2 S h).trans
          (by
            intro x hx
            simp only [treeMarkerSet, treeMarkerSetL, List.mem_toFinset, List.mem_filterMap,
              preorderNodes, preorderNodesL, List.mem_cons, List.mem_append] at hx ⊢
            obtain ⟨u, hu, hmu⟩ := hx
            exact ⟨u, by tauto, hmu⟩)
  | .exprStmt m value, hfree => by
      simp only [trackingFree, preorderNodes, List.all_cons, List.all_append,
        Bool.and_eq_true, isTrackingB, Bool.not_false, eq_self_iff_true,
        true_and] at hfree
      have hf1 := hfree
      intro S hS
      simp only [genericVisit, trackingSets, preorderNodes, List.filterMap_cons,
        List.filterMap_append, trackingSetOf, List.mem_append] at hS
      have h := hS
      exact (trackingSets_sub_node value hf1 S h).trans
          (by
            intro x hx
            simp only [treeMarkerSet, treeMarkerSetL, List.mem_toFinset, List.mem_filterMap,
              preorderNodes, preorderNodesL, List.mem_cons, List.mem_append] at hx ⊢
            obtain ⟨u, hu, hmu⟩ := hx
            exact ⟨u, by tauto, hmu⟩)
  | .importFrom m md names level, hfree => by
      simp only [trackingFree, preorderNodes, List.all_cons, List.all_append,
        Bool.and_eq_true, isTrackingB, Bool.not_false, eq_self_iff_true,
        true_and] at hfree
      have hf1 := hfree
      intro S hS
      simp only [genericVisit, trackingSets, preorderNodes, List.filterMap_cons,
        List.filterMap_append, trackingSetOf, List.mem_append] at hS
      have h := hS
      exact (trackingSets_sub_genericList names hf1 S h).trans
          (by
            intro x hx
            simp only [treeMarkerSet, treeMarkerSetL, List.mem_toFinset, List.mem_filterMap,
              preorderNodes, preorderNodesL, List.mem_cons, List.mem_append] at hx ⊢
            obtain ⟨u, hu, hmu⟩ := hx
            exact ⟨u, by tauto, hmu⟩)
  | .aliasNode m aname asname, _ => by
      intro S hS
      simp [genericVisit, trackingSets, preorderNodes, trackingSetOf] at hS
  | .passStmt m, _ => by
      intro S hS
      simp [genericVisit, trackingSets, preorderNodes, trackingSetOf] at hS
  | .nameNode m id ctx, hfree => by
      simp only [trackingFree, preorderNodes, List.all_cons, List.all_append,
        Bool.and_eq_true, isTrackingB, Bool.not_false, eq_self_iff_true,
        true_and] at hfree
      have hf1 := hfree
      intro S hS
      simp only [genericVisit, trackingSets, preorderNodes, List.filterMap_cons,
        List.filterMap_append, trackingSetOf, List.mem_append] at hS
      have h := hS
      exact (trackingSets_sub_node ctx hf1 S h).trans
          (by
            intro x hx
            simp only [treeMarkerSet, treeMarkerSetL, List.mem_toFinset, List.mem_filterMap,
              preorderNodes, preorderNodesL, List.mem_cons, List.mem_append] at hx ⊢
            obtain ⟨u, hu, hmu⟩ := hx
            exact ⟨u, by tauto, hmu⟩)
  | .load m, _ => by
      intro S hS
      simp [genericVisit, trackingSets, preorderNodes, trackingSetOf] at hS
  | .store m, _ => by
      intro S hS
      simp [genericVisit, trackingSets, preorderNodes, trackingSetOf] at hS
  | .numNode m n, _ => by
      intro S hS
      simp [genericVisit, trackingSets, preorderNodes, trackingSetOf] at hS
  | .strNode m s, _ => by
      intro S hS
      simp [genericVisit, trackingSets, preorderNodes, trackingSetOf] at hS
  | .binOp m left op right, hfree => by
      simp only [trackingFree, preorderNodes, List.all_cons, List.all_append,
        Bool.and_eq_true, isTrackingB, Bool.not_false, eq_self_iff_true,
        true_and] at hfree
      obtain ⟨⟨hf1, hf2⟩, hf3⟩ := hfree
      intro S hS
      simp only [genericVisit, trackingSets, preorderNodes, List.filterMap_cons,
        List.filterMap_append, trackingSetOf, List.mem_append] at hS
      rcases hS with ((h) | h) | h
      · exact (trackingSets_sub_node left hf1 S h).trans
          (by
            intro x hx
            simp only [treeMarkerSet, treeMarkerSetL, List.mem_toFinset, List.mem_filterMap,
              preorderNodes, preorderNodesL, List.mem_cons, List.mem_append] at hx ⊢
            obtain ⟨u, hu, hmu⟩ := hx
            exact ⟨u, by tauto, hmu⟩)
      · exact (trackingSets_sub_node op hf2 S h).trans
          (by
            intro x hx
            simp only [treeMarkerSet, treeMarkerSetL, List.mem_toFinset, List.mem_filterMap,
              preorderNodes, preorderNodesL, List.mem_cons, List.mem_append] at hx ⊢
            obtain ⟨u, hu, hmu⟩ := hx
            exact ⟨u, by tauto, hmu⟩)
      · exact (trackingSets_sub_node right hf3 S h).trans
          (by
            intro x hx
            simp only [treeMarkerSet, treeMarkerSetL, List.mem_toFinset, List.mem_filterMap,
              preorderNodes, preorderNodesL, List.mem_cons, List.mem_append] at hx ⊢
            obtain ⟨u, hu, hmu⟩ := hx
            exact ⟨u, by tauto, hmu⟩)
  | .opAdd m, _ => by
      intro S hS
      simp [genericVisit, trackingSets, preorderNodes, trackingSetOf] at hS
  | .opSub m, _ => by
      intro S hS
      simp [genericVisit, trackingSets, preorderNodes, trackingSetOf] at hS
  | .opMult m, _ => by
      intro S hS
      simp [genericVisit, trackingSets, preorderNodes, trackingSetOf] at hS
  | .tupleNode m elts ctx, hfree => by
      simp only [trackingFree, preorderNodes, List.all_cons, List.all_append,
        Bool.and_eq_true, isTrackingB, Bool.not_false, eq_self_iff_true,
        true_and] at hfree
      obtain ⟨hf1, hf2⟩ := hfree
      intro S hS
      simp only [genericVisit, trackingSets, preorderNodes, List.filterMap_cons,
        List.filterMap_append, trackingSetOf, List.mem_append] at hS
      rcases hS with (h) | h
      · exact (trackingSets_sub_genericList elts hf1 S h).trans
          (by
            intro x hx
            simp only [treeMarkerSet, treeMarkerSetL, List.mem_toFinset, List.mem_filterMap,
              preorderNodes, preorderNodesL, List.mem_cons, List.mem_append] at hx ⊢
            obtain ⟨u, hu, hmu⟩ := hx
            exact ⟨u, by tauto, hmu⟩)
      · exact (trackingSets_sub_node ctx hf2 S h).trans
          (by
            intro x hx
            simp only [treeMarkerSet, treeMarkerSetL, List.mem_toFinset, List.mem_filterMap,
              preorderNodes, preorderNodesL, List.mem_cons, List.mem_append] at hx ⊢
            obtain ⟨u, hu, hmu⟩ := hx
            exact ⟨u, by tauto, hmu⟩)
  | .unknown m tag children, hfree => by
      simp only [trackingFree, preorderNodes, List.all_cons, List.all_append,
        Bool.and_eq_true, isTrackingB, Bool.not_false, eq_self_iff_true,
        true_and] at hfree
      have hf1 := hfree
      intro S hS
      simp only [genericVisit, trackingSets, preorderNodes, List.filterMap_cons,
        List.filterMap_append, trackingSetOf, List.mem_append] at hS
      have h := hS
      exact (trackingSets_sub_body false children hf1 S h).trans
          (by
            intro x hx
            simp only [treeMarkerSet, treeMarkerSetL, List.mem_toFinset, List.mem_filterMap,
              preorderNodes, preorderNodesL, List.mem_cons, List.mem_append] at hx ⊢
            obtain ⟨u, hu, hmu⟩ := hx
            exact ⟨u, by tauto, hmu⟩)
  | .tracking m sets, hfree => by
      simp [trackingFree, preorderNodes, isTrackingB] at hfree

/-- The body-list version of `trackingSets_sub_node`. -/
theorem trackingSets_sub_body : (dh : Bool) → (ts : List Node) → trackingFreeL ts = true →
    ∀ S ∈ trackingSetsL (transformBody dh ts), S ⊆ treeMarkerSetL ts
  | _, [], _ => by
      intro S hS
      simp [trackingSetsL, preorderNodesL, transformBody] at hS
  | dh, s :: rest, hfree => by
      simp only [trackingFreeL, preorderNodesL, List.all_append, Bool.and_eq_true] at hfree
      obtain ⟨hf1, hf2⟩ := hfree
      intro S hS
      rw [transformBody_cons] at hS
      have hsplit : S ∈ trackingSetsL (visitStmt dh s)
          ∨ S ∈ trackingSetsL (transformBody false rest) := by
        simpa [trackingSetsL, preorderNodesL_append, List.filterMap_append,
          List.mem_append] using hS
      rcases hsplit with h | h
      · exact (visitStmt_sets_sub dh s (trackingSets_sub_node s hf1) S h).trans
          (by
            intro x hx
            simp only [treeMarkerSet, treeMarkerSetL, List.mem_toFinset, List.mem_filterMap,
              preorderNodes, preorderNodesL, List.mem_cons, List.mem_append] at hx ⊢
            obtain ⟨u, hu, hmu⟩ := hx
            exact ⟨u, by tauto, hmu⟩)
      · exact (trackingSets_sub_body false rest hf2 S h).trans
          (by
            intro x hx
            simp only [treeMarkerSet, treeMarkerSetL, List.mem_toFinset, List.mem_filterMap,
              preorderNodes, preorderNodesL, List.mem_cons, List.mem_append] at hx ⊢
            obtain ⟨u, hu, hmu⟩ := hx
            exact ⟨u, by tauto, hmu⟩)

/-- The non-body list version of `trackingSets_sub_node`. -/
theorem trackingSets_sub_genericList : (ts : List Node) → trackingFreeL ts = true →
    ∀ S ∈ trackingSetsL (genericList ts), S ⊆ treeMarkerSetL ts
  | [], _ => by
      intro S hS
      simp [trackingSetsL, preorderNodesL, genericList] at hS
  | t :: ts, hfree => by
      simp only [trackingFreeL, preorderNodesL, List.all_append, Bool.and_eq_true] at hfree
      obtain ⟨hf1, hf2⟩ := hfree
      intro S hS
      have hsplit : S ∈ trackingSets (genericVisit t)
          ∨ S ∈ trackingSetsL (genericList ts) := by
        simpa [genericList, trackingSetsL, trackingSets, preorderNodesL,
          List.filterMap_append, List.mem_append] using hS
      rcases hsplit with h | h
      · exact (trackingSets_sub_node t hf1 S h).trans
          (by
            intro x hx
            simp only [treeMarkerSet, treeMarkerSetL, List.mem_toFinset, List.mem_filterMap,
              preorderNodes, preorderNodesL, List.mem_cons, List.mem_append] at hx ⊢
            obtain ⟨u, hu, hmu⟩ := hx
            exact ⟨u, by tauto, hmu⟩)
      · exact (trackingSets_sub_genericList ts hf2 S h).trans
          (by
            intro x hx
            simp only [treeMarkerSet, treeMarkerSetL, List.mem_toFinset, List.mem_filterMap,
              preorderNodes, preorderNodesL, List.mem_cons, List.mem_append] at hx ⊢
            obtain ⟨u, hu, hmu⟩ := hx
            exact ⟨u, by tauto, hmu⟩)

end
mutual

/-- Annotation only writes markers: a tracking-free tree stays
tracking-free. -/
theorem annotateNode_trackingFree : (t : Node) → (c : Nat) → trackingFree t = true →
    trackingFree (annotateNode c t).1 = true
  | .module m body, c, h => by
      simp only [trackingFree, trackingFreeL, preorderNodes, preorderNodesL,
        List.all_cons, List.all_append, Bool.and_eq_true, isTrackingB,
        Bool.not_false, eq_self_iff_true, true_and] at h
      have hh1 := h
      have g1 := annotateList_trackingFree body (assignMarker m c).2 hh1
      simp only [annotateNode, annotateList]
      simp only [trackingFree, trackingFreeL, preorderNodes, preorderNodesL,
        List.all_cons, List.all_append, Bool.and_eq_true, isTrackingB,
        Bool.not_false, eq_self_iff_true, true_and] at g1  ⊢
      exact g1
  | .functionDef m fname args body, c, h => by
      simp only [trackingFree, trackingFreeL, preorderNodes, preorderNodesL,
        List.all_cons, List.all_append, Bool.and_eq_true, isTrackingB,
        Bool.not_false, eq_self_iff_true, true_and] at h
      obtain ⟨hh1, hh2⟩ := h
      have g1 := annotateNode_trackingFree args (assignMarker m c).2 hh1
      have g2 := annotateList_trackingFree body (annotateNode (assignMarker m c).2 args).2 hh2
      simp only [annotateNode, annotateList]
      simp only [trackingFree, trackingFreeL, preorderNodes, preorderNodesL,
        List.all_cons, List.all_append, Bool.and_eq_true, isTrackingB,
        Bool.not_false, eq_self_iff_true, true_and] at g1 g2 ⊢
      exact ⟨g1, g2⟩
  | .argumentsNode m args, c, h => by
      simp only [trackingFree, trackingFreeL, preorderNodes, preorderNodesL,
        List.all_cons, List.all_append, Bool.and_eq_true, isTrackingB,
        Bool.not_false, eq_self_iff_true, true_and] at h
      have hh1 := h
      have g1 := annotateList_trackingFree args (assignMarker m c).2 hh1
      simp only [annotateNode, annotateList]
      simp only [trackingFree, trackingFreeL, preorderNodes, preorderNodesL,
        List.all_cons, List.all_append, Bool.and_eq_true, isTrackingB,
        Bool.not_false, eq_self_iff_true, true_and] at g1  ⊢
      exact g1
  | .argNode m aname, c, h => by
      simp [trackingFree, annotateNode, preorderNodes, isTrackingB]
  | .ifStmt m test body orelse, c, h => by
      simp only [trackingFree, trackingFreeL, preorderNodes, preorderNodesL,
        List.all_cons, List.all_append, Bool.and_eq_true, isTrackingB,
        Bool.not_false, eq_self_iff_true, true_and] at h
      obtain ⟨⟨hh1, hh2⟩, hh3⟩ := h
      have g1 := annotateNode_trackingFree test (assignMarker m c).2 hh1
      have g2 := annotateList_trackingFree body (annotateNode (assignMarker m c).2 test).2 hh2
      have g3 := annotateList_trackingFree orelse (annotateList (annotateNode (assignMarker m c).2 test).2 body).2 hh3
      simp only [annotateNode, annotateList]
      simp only [trackingFree, trackingFreeL, preorderNodes, preorderNodesL,
        List.all_cons, List.all_append, Bool.and_eq_true, isTrackingB,
        Bool.not_false, eq_self_iff_true, true_and] at g1 g2 g3 ⊢
      exact ⟨⟨g1, g2⟩, g3⟩
  | .forStmt m target iter body orelse, c, h => by
      simp only [trackingFree, trackingFreeL, preorderNodes, preorderNodesL,
        List.all_cons, List.all_append, Bool.and_eq_true, isTrackingB,
        Bool.not_false, eq_self_iff_true, true_and] at h
      obtain ⟨⟨⟨hh1, hh2⟩, hh3⟩, hh4⟩ := h
      have g1 := annotateNode_trackingFree target (assignMarker m c).2 hh1
      have g2 := annotateNode_trackingFree iter (annotateNode (assignMarker m c).2 target).2 hh2
      have g3 := annotateList_trackingFree body (annotateNode (annotateNode (assignMarker m c).2 target).2 iter).2 hh3
      have g4 := annotateList_trackingFree orelse (annotateList (annotateNode (annotateNode (assignMarker m c).2 target).2 iter).2 body).2 hh4
      simp only [annotateNode, annotateList]
      simp only [trackingFree, trackingFreeL, preorderNodes, preorderNodesL,
        List.all_cons, List.all_append, Bool.and_eq_true, isTrackingB,
        Bool.not_false, eq_self_iff_true, true_and] at g1 g2 g3 g4 ⊢
      exact ⟨⟨⟨g1, g2⟩, g3⟩, g4⟩
  | .whileStmt m test body orelse, c, h => by
      simp only [trackingFree, trackingFreeL, preorderNodes, preorderNodesL,
        List.all_cons, List.all_append, Bool.and_eq_true, isTrackingB,
        Bool.not_false, eq_self_iff_true, true_and] at h
      obtain ⟨⟨hh1, hh2⟩, hh3⟩ := h
      have g1 := annotateNode_trackingFree test (assignMarker m c).2 hh1
      have g2 := annotateList_trackingFree body (annotateNode (assignMarker m c).2 test).2 hh2
      have g3 := annotateList_trackingFree orelse (annotateList (annotateNode (assignMarker m c).2 test).2 body).2 hh3
      simp only [annotateNode, annotateList]
      simp only [trackingFree, trackingFreeL, preorderNodes, preorderNodesL,
        List.all_cons, List.all_append, Bool.and_eq_true, isTrackingB,
        Bool.not_false, eq_self_iff_true, true_and] at g1 g2 g3 ⊢
      exact ⟨⟨g1, g2⟩, g3⟩
  | .assign m targets value, c, h => by
      simp only [trackingFree, trackingFreeL, preorderNodes, preorderNodesL,
        List.all_cons, List.all_append, Bool.and_eq_true, isTrackingB,
        Bool.not_false, eq_self_iff_true, true_and] at h
      obtain ⟨hh1, hh2⟩ := h
      have g1 := annotateList_trackingFree targets (assignMarker m c).2 hh1
      have g2 := annotateNode_trackingFree value (annotateList (assignMarker m c).2 targets).2 hh2
      simp only [annotateNode, annotateList]
      simp only [trackingFree, trackingFreeL, preorderNodes, preorderNodesL,
        List.all_cons, List.all_append, Bool.and_eq_true, isTrackingB,
        Bool.not_false, eq_self_iff_true, true_and] at g1 g2 ⊢
      exact ⟨g1, g2⟩
  | .exprStmt m value, c, h => by
      simp only [trackingFree, trackingFreeL, preorderNodes, preorderNodesL,
        List.all_cons, List.all_append, Bool.and_eq_true, isTrackingB,
        Bool.not_false, eq_self_iff_true, true_and] at h
      have hh1 := h
      have g1 := annotateNode_trackingFree value (assignMarker m c).2 hh1
      simp only [annotateNode, annotateList]
      simp only [trackingFree, trackingFreeL, preorderNodes, preorderNodesL,
        List.all_cons, List.all_append, Bool.and_eq_true, isTrackingB,
        Bool.not_false, eq_self_iff_true, true_and] at g1  ⊢
      exact g1
  | .importFrom m md names level, c, h => by
      simp only [trackingFree, trackingFreeL, preorderNodes, preorderNodesL,
        List.all_cons, List.all_append, Bool.and_eq_true, isTrackingB,
        Bool.not_false, eq_self_iff_true, true_and] at h
      have hh1 := h
      have g1 := annotateList_trackingFree names (assignMarker m c).2 hh1
      simp only [annotateNode, annotateList]
      simp only [trackingFree, trackingFreeL, preorderNodes, preorderNodesL,
        List.all_cons, List.all_append, Bool.and_eq_true, isTrackingB,
        Bool.not_false, eq_self_iff_true, true_and] at g1  ⊢
      exact g1
  | .aliasNode m aname asname, c, h => by
      simp [trackingFree, annotateNode, preorderNodes, isTrackingB]
  | .passStmt m, c, h => by
      simp [trackingFree, annotateNode, preorderNodes, isTrackingB]
  | .nameNode m id ctx, c, h => by
      simp only [trackingFree, trackingFreeL, preorderNodes, preorderNodesL,
        List.all_cons, List.all_append, Bool.and_eq_true, isTrackingB,
        Bool.not_false, eq_self_iff_true, true_and] at h
      have hh1 := h
      have g1 := annotateNode_trackingFree ctx (assignMarker m c).2 hh1
      simp only [annotateNode, annotateList]
      simp only [trackingFree, trackingFreeL, preorderNodes, preorderNodesL,
        List.all_cons, List.all_append, Bool.and_eq_true, isTrackingB,
        Bool.not_false, eq_self_iff_true, true_and] at g1  ⊢
      exact g1
  | .load m, c, h => by
      simp [trackingFree, annotateNode, preorderNodes, isTrackingB]
  | .store m, c, h => by
      simp [trackingFree, annotateNode, preorderNodes, isTrackingB]
  | .numNode m n, c, h => by
      simp [trackingFree, annotateNode, preorderNodes, isTrackingB]
  | .strNode m s, c, h => by
      simp [trackingFree, annotateNode, preorderNodes, isTrackingB]
  | .binOp m left op right, c, h => by
      simp only [trackingFree, trackingFreeL, preorderNodes, preorderNodesL,
        List.all_cons, List.all_append, Bool.and_eq_true, isTrackingB,
        Bool.not_false, eq_self_iff_true, true_and] at h
      obtain ⟨⟨hh1, hh2⟩, hh3⟩ := h
      have g1 := annotateNode_trackingFree left (assignMarker m c).2 hh1
      have g2 := annotateNode_trackingFree op (annotateNode (assignMarker m c).2 left).2 hh2
      have g3 := annotateNode_trackingFree right (annotateNode (annotateNode (assignMarker m c).2 left).2 op).2 hh3
      simp only [annotateNode, annotateList]
      simp only [trackingFree, trackingFreeL, preorderNodes, preorderNodesL,
        List.all_cons, List.all_append, Bool.and_eq_true, isTrackingB,
        Bool.not_false, eq_self_iff_true, true_and] at g1 g2 g3 ⊢
      exact ⟨⟨g1, g2⟩, g3⟩
  | .opAdd m, c, h => by
      simp [trackingFree, annotateNode, preorderNodes, isTrackingB]
  | .opSub m, c, h => by
      simp [trackingFree, annotateNode, preorderNodes, isTrackingB]
  | .opMult m, c, h => by
      simp [trackingFree, annotateNode, preorderNodes, isTrackingB]
  | .tupleNode m elts ctx, c, h => by
      simp only [trackingFree, trackingFreeL, preorderNodes, preorderNodesL,
        List.all_cons, List.all_append, Bool.and_eq_true, isTrackingB,
        Bool.not_false, eq_self_iff_true, true_and] at h
      obtain ⟨hh1, hh2⟩ := h
      have g1 := annotateList_trackingFree elts (assignMarker m c).2 hh1
      have g2 := annotateNode_trackingFree ctx (annotateList (assignMarker m c).2 elts).2 hh2
      simp only [annotateNode, annotateList]
      simp only [trackingFree, trackingFreeL, preorderNodes, preorderNodesL,
        List.all_cons, List.all_append, Bool.and_eq_true, isTrackingB,
        Bool.not_false, eq_self_iff_true, true_and] at g1 g2 ⊢
      exact ⟨g1, g2⟩
  | .unknown m tag children, c, h => by
      simp only [trackingFree, trackingFreeL, preorderNodes, preorderNodesL,
        List.all_cons, List.all_append, Bool.and_eq_true, isTrackingB,
        Bool.not_false, eq_self_iff_true, true_and] at h
      have hh1 := h
      have g1 := annotateList_trackingFree children (assignMarker m c).2 hh1
      simp only [annotateNode, annotateList]
      simp only [trackingFree, trackingFreeL, preorderNodes, preorderNodesL,
        List.all_cons, List.all_append, Bool.and_eq_true, isTrackingB,
        Bool.not_false, eq_self_iff_true, true_and] at g1  ⊢
      exact g1
  | .tracking m sets, c, h => by
      simp [trackingFree, preorderNodes, isTrackingB] at h

/-- Forest version of `annotateNode_trackingFree`. -/
theorem annotateList_trackingFree : (ts : List Node) → (c : Nat) → trackingFreeL ts = true →
    trackingFreeL (annotateList c ts).1 = true
  | [], _, _ => rfl
  | t :: ts, c, h => by
      simp only [trackingFreeL, preorderNodesL, List.all_append, Bool.and_eq_true] at h
      obtain ⟨hh1, hh2⟩ := h
      have g1 := annotateNode_trackingFree t c hh1
      have g2 := annotateList_trackingFree ts (annotateNode c t).2 hh2
      simp only [annotateList]
      simp only [trackingFree, trackingFreeL, preorderNodesL, List.all_append,
        Bool.and_eq_true] at g1 g2 ⊢
      exact ⟨g1, g2⟩

end

/-- Every node kind lists at least itself: trees are nonempty. -/
theorem sizeN_pos (t : Node) : 0 < sizeN t := by
  rw [sizeN, preorderNodes_cons t]
  simp

/-- On an unmarked tree, annotation hands out exactly the markers
`0 … n-1` as the tree's marker set. -/
theorem treeMarkerSet_annotate (t : Node) (hu : unmarkedN t = true) :
    treeMarkerSet (annotate t).1 = Finset.range (sizeN t) := by
  obtain ⟨h1, -⟩ := annotateNode_spec t 0 hu
  unfold treeMarkerSet
  rw [filterMap_of_map_some Node.marker _ _ (by simpa [markerRange, annotate] using h1)]
  rw [← List.range_eq_range']
  ext x
  simp [List.mem_range, Finset.mem_range]

/-- On an unmarked tree, the root receives marker 0. -/
theorem annotate_root_marker (t : Node) (hu : unmarkedN t = true) :
    (annotate t).1.marker = some 0 := by
  obtain ⟨h1, -⟩ := annotateNode_spec t 0 hu
  rw [show annotateNode 0 t = annotate t from rfl] at h1
  rw [preorderNodes_cons (annotate t).1] at h1
  have hn : sizeN t = (sizeN t - 1) + 1 := by have := sizeN_pos t; omega
  rw [hn, markerRange_succ] at h1
  simpa using congrArg List.head? h1

/-- A reachable covered set contains the initial covered set. -/
theorem Reachable_init_le {sets : List (Finset Nat)} {init S : Finset Nat}
    (h : Reachable sets init S) : init ⊆ S := by
  induction h with
  | refl => exact fun x hx => hx
  | step h hu ih => exact ih.trans Finset.subset_union_left

/-- Reachable covered sets stay inside any set containing the initial
state and every tracking set. -/
theorem Reachable_subset {sets : List (Finset Nat)} {init S M : Finset Nat}
    (h : Reachable sets init S) (hinit : init ⊆ M) (hsets : ∀ u ∈ sets, u ⊆ M) : S ⊆ M := by
  induction h with
  | refl => exact hinit
  | step h hu ih => exact Finset.union_subset ih (hsets _ hu)

/-- Claim C6.  For an (unmarked, tracking-free) tree, in every session
state reachable after `inject(tree)` — the state `inject` leaves plus any
sequence of tracking updates executed from the instrumented tree — the
pair returned by `get_result()` has numerator `|CoveredSet|` and the
numerator never exceeds the denominator `last_marker`. -/
theorem C6_get_result_bounds (t : Node) (hu : unmarkedN t = true) (hf : trackingFree t = true)
    (S : Finset Nat) (hS : Reachable (trackingSets (inject t).1) (inject t).2.1 S) :
    (get_result S (inject t).2.2).1 ≤ (get_result S (inject t).2.2).2
      ∧ get_result S (inject t).2.2 = (S.card, (inject t).2.2) := by
  refine ⟨?_, rfl⟩
  have hn : (inject t).2.2 = sizeN t := by
    obtain ⟨-, h2⟩ := annotateNode_spec t 0 hu
    simpa [inject, annotate] using h2
  have hM : treeMarkerSet (annotate t).1 = Finset.range (sizeN t) := treeMarkerSet_annotate t hu
  have hinit : (inject t).2.1 = {0} := by
    show optMarkerSet (genericVisit (annotate t).1).marker = {0}
    rw [genericVisit_marker, annotate_root_marker t hu]
    rfl
  have hsub : S ⊆ Finset.range (sizeN t) := by
    refine Reachable_subset hS ?_ ?_
    · rw [hinit]
      intro x hx
      simp only [Finset.mem_singleton] at hx
      subst hx
      exact Finset.mem_range.mpr (sizeN_pos t)
    · intro u hu2
      have hfA : trackingFree (annotate t).1 = true := annotateNode_trackingFree t 0 hf
      have hsb := trackingSets_sub_node (annotate t).1 hfA u (by simpa [inject] using hu2)
      rwa [hM] at hsb
  show S.card ≤ (inject t).2.2
  calc S.card ≤ (Finset.range (sizeN t)).card := Finset.card_le_card hsub
    _ = sizeN t := Finset.card_range _
    _ = (inject t).2.2 := hn.symm

/-- Claim C9.  `inject` unconditionally seeds `CoveredSet` with the marker
of the instrumented tree's root module node — marker 0 — before
execution starts; every later session state keeps it, so `is_covered` on
the root is true and the `get_result()` numerator is at least 1. -/
theorem C9_root_marker_always_covered (t : Node) (hu : unmarkedN t = true)
    (S : Finset Nat) (hS : Reachable (trackingSets (inject t).1) (inject t).2.1 S) :
    (inject t).2.1 = {0}
      ∧ (inject t).1.marker = some 0
      ∧ is_covered S (inject t).1 = true
      ∧ 1 ≤ (get_result S (inject t).2.2).1 := by
  have hinit : (inject t).2.1 = {0} := by
    show optMarkerSet (genericVisit (annotate t).1).marker = {0}
    rw [genericVisit_marker, annotate_root_marker t hu]
    rfl
  have hroot : (inject t).1.marker = some 0 := by
    show (genericVisit (annotate t).1).marker = some 0
    rw [genericVisit_marker]
    exact annotate_root_marker t hu
  have h0 : (0 : Nat) ∈ S := by
    have := Reachable_init_le hS
    rw [hinit] at this
    exact this (Finset.mem_singleton_self 0)
  refine ⟨hinit, hroot, ?_, ?_⟩
  · simp [is_covered, hroot, h0]
  · show 1 ≤ S.card
    exact Finset.card_pos.mpr ⟨0, h0⟩

/-- Witness for C6 on `if x: y = 1`, at the session state `inject`
leaves (`Reachable.refl`). -/
theorem C6_get_result_bounds_witness :
    (unmarkedN egIfTree = true ∧ trackingFree egIfTree = true)
      ∧ ((get_result (inject egIfTree).2.1 (inject egIfTree).2.2).1
            ≤ (get_result (inject egIfTree).2.1 (inject egIfTree).2.2).2
        ∧ get_result (inject egIfTree).2.1 (inject egIfTree).2.2
            = ((inject egIfTree).2.1.card, (inject egIfTree).2.2)) :=
  ⟨⟨by decide, by decide⟩,
    C6_get_result_bounds egIfTree (by decide) (by decide) _ (Reachable.refl _)⟩

/-- Witness for C9 on `if x: y = 1`, after one executed tracking update. -/
theorem C9_root_marker_always_covered_witness :
    unmarkedN egIfTree = true
      ∧ ((inject egIfTree).2.1 = {0}
        ∧ (inject egIfTree).1.marker = some 0
        ∧ is_covered ((inject egIfTree).2.1 ∪ {1, 2, 3}) (inject egIfTree).1 = true
        ∧ 1 ≤ (get_result ((inject egIfTree).2.1 ∪ {1, 2, 3}) (inject egIfTree).2.2).1) :=
  ⟨by decide,
    C9_root_marker_always_covered egIfTree (by decide) _
      (Reachable.step (Reachable.refl _) (by decide))⟩

/-- Pulling the accumulator out of the marker-collecting fold. -/
theorem foldl_union_acc (l : List Node) (acc : Finset Nat) :
    l.foldl
        (fun a el => if el.marker.isSome then a ∪ (optMarkerSet el.marker ∪ descMarkers el) else a)
        acc
      = acc ∪ l.foldl
          (fun a el => if el.marker.isSome then a ∪ (optMarkerSet el.marker ∪ descMarkers el) else a)
          ∅ := by
  induction l generalizing acc with
  | nil => simp
  | cons el rest ih =>
      simp only [List.foldl_cons]
      by_cases hm : el.marker.isSome
      · simp only [hm, if_true]
        rw [ih (acc ∪ (optMarkerSet el.marker ∪ descMarkers el)),
          ih (∅ ∪ (optMarkerSet el.marker ∪ descMarkers el))]
        simp [Finset.union_assoc]
      · simp only [hm, if_false]
        exact ih acc

/-- The branch subtraction loop equals one set difference: own and
descendant markers minus the union, over the marker-carrying elements of
the main body, of their own and descendant markers. -/
theorem branchCoverageSet_eq_sdiff (t : Node) :
    branchCoverageSet t
      = plainCoverageSet t
        \ (bodyField t).foldl
            (fun a el =>
              if el.marker.isSome then a ∪ (optMarkerSet el.marker ∪ descMarkers el) else a)
            ∅ := by
  unfold branchCoverageSet
  generalize plainCoverageSet t = init
  generalize bodyField t = l
  induction l generalizing init with
  | nil => simp
  | cons el rest ih =>
      simp only [List.foldl_cons]
      by_cases hm : el.marker.isSome
      · simp only [hm, if_true]
        rw [ih (init \ (optMarkerSet el.marker ∪ descMarkers el)),
          foldl_union_acc rest (∅ ∪ (optMarkerSet el.marker ∪ descMarkers el))]
        rw [sdiff_sdiff_left]
        simp [Finset.sup_eq_union]
      · simp only [hm, if_false]
        exact ih init

/-- Claim C4, counterexample.  In `if x: from __future__ import division`
the body statement is exempt and carries no injected tracking, yet the
code still subtracts its markers (4 for the import, 5 for the alias)
from the branch's tracking set: the only tracking injection in the whole
instrumented tree covers `{1, 2, 3}` (the `if` node, its test and the
test's context), not the `{1, 2, 3, 4, 5}` the claim's
"only children that carry independent injected tracking" rule demands. -/
theorem C4_counterexample_exempt_body_subtracted :
    trackingSets (inject egIfFutureTree).1 = [{1, 2, 3}]
      ∧ trackingSets (inject egIfFutureTree).1 ≠ [{1, 2, 3, 4, 5}]
      ∧ preorderMarkers (annotate egIfFutureTree).1
          = [some 0, some 1, some 2, some 3, some 4, some 5] :=
  ⟨by decide, by decide, by decide⟩

/-- Claim C4, amended.  The tracking set injected before a branch statement
is its own-plus-descendant markers minus the own-plus-descendant markers
of every immediate-child statement of its main body that carries a
marker (instrumented or not).  Concretely, instrumenting `if x: y = 1`
yields exactly two tracking injections: one before the `if` covering
only the `if`-node and condition markers `{1, 2, 3}`, one inside the body
before `y = 1` covering that statement's markers `{4, 5, 6, 7}`; after
execution, `is_covered` on the assignment node is true iff the body ran. -/
theorem C4_branch_tracking_sets :
    (∀ t : Node, branchCoverageSet t
        = plainCoverageSet t
          \ (bodyField t).foldl
              (fun a el =>
                if el.marker.isSome then a ∪ (optMarkerSet el.marker ∪ descMarkers el) else a)
              ∅)
      ∧ trackingSets (inject egIfTree).1 = [{1, 2, 3}, {4, 5, 6, 7}]
      ∧ (bodyField (inject egIfTree).1).map trackingSetOf = [some {1, 2, 3}, none]
      ∧ (bodyField ((bodyField (inject egIfTree).1).getD 1 (.passStmt none))).map trackingSetOf
          = [some {4, 5, 6, 7}, none]
      ∧ is_covered (execStmt (fun _ => true) (inject egIfTree).2.1 (inject egIfTree).1)
          egAnnotatedAssign = true
      ∧ is_covered (execStmt (fun _ => false) (inject egIfTree).2.1 (inject egIfTree).1)
          egAnnotatedAssign = false :=
  ⟨branchCoverageSet_eq_sdiff, by decide, by decide, by decide, by decide, by decide⟩

/-- Source `generic_visit` does not alter what `is_future_statement` sees. -/
theorem is_future_genericVisit (s : Node) :
    is_future_statement (genericVisit s) = is_future_statement s := by
  cases s <;> try rfl
  rename_i m md names level
  cases md <;> rfl

/-- Source `generic_visit` does not alter what the docstring check sees. -/
theorem isDocstring_genericVisit (s : Node) :
    isDocstringExpr (genericVisit s) = isDocstringExpr s := by
  cases s <;> try rfl
  rename_i m value
  cases value <;> rfl

/-- Plain statement kinds are neither definitions nor branches, before or
after `generic_visit`. -/
theorem isStatementNode_not_other (s : Node) (hs : isStatementNode s = true) :
    isDefinitionNode s = false ∧ isBranchNode (genericVisit s) = false := by
  cases s <;> simp_all [isStatementNode, isDefinitionNode, isBranchNode, genericVisit]

/-- The non-branch tracking set over the instrumented statement equals
the statement's whole original marker set. -/
theorem plainCoverageSet_gv_eq (s : Node) :
    plainCoverageSet (genericVisit s) = treeMarkerSet s := by
  rw [plainCoverageSet, genericVisit_marker, descMarkers_genericVisit, ← treeMarkerSet_eq]

/-- Claim C5, counterexample.  `def f(): pass; from __future__ import division`
— the future-behavior declaration sits inside a function body, not at
module level, yet it passes through uninstrumented: the instrumented
tree's only tracking statements are the definition-entry `.add(1)` for
`f` and the `{3}` update for `pass`; marker 4 (the import) is tracked
nowhere, although the claim restricts the exemption to module-level
future imports. -/
theorem C5_counterexample_nested_future_exempt :
    trackingSets (inject egFnFutureTree).1 = [{1}, {3}]
      ∧ preorderMarkers (annotate egFnFutureTree).1
          = [some 0, some 1, some 2, some 3, some 4, some 5] :=
  ⟨by decide, by decide⟩

/-- Claim C5, amended.  For every plain-statement node the instrumenter
injects, immediately before it, a tracking effect recording the
statement's own marker plus the markers of every descendant — except
that a `from __future__` import (at any nesting level) and a leading
string-literal documentation statement of a module/function/class body
pass through uninstrumented; statements outside those two exemptions are
always instrumented. -/
theorem C5_plain_statement_instrumentation (docLead : Bool) (s : Node)
    (hs : isStatementNode s = true) :
    (is_future_statement s = true → visitStmt docLead s = [genericVisit s])
      ∧ ((docLead && isDocstringExpr s) = true → visitStmt docLead s = [genericVisit s])
      ∧ (is_future_statement s = false → (docLead && isDocstringExpr s) = false →
          visitStmt docLead s = [.tracking none (treeMarkerSet s), genericVisit s]) := by
  obtain ⟨hdef, hbr⟩ := isStatementNode_not_other s hs
  refine ⟨?_, ?_, ?_⟩
  · intro hfut
    simp [visitStmt, hdef, hs, is_future_genericVisit, hfut]
  · intro hdoc
    rw [Bool.and_eq_true] at hdoc
    simp [visitStmt, hdef, hs, is_future_genericVisit, isDocstring_genericVisit,
      hdoc.1, hdoc.2]
  · intro hfut hdoc
    simp [visitStmt, hdef, hs, is_future_genericVisit, isDocstring_genericVisit, hfut,
      generateCoverageNode_eq, hbr, plainCoverageSet_gv_eq, hdoc]

/-- Witness for C5 at the plain assignment statement of `if x: y = 1`. -/
theorem C5_plain_statement_instrumentation_witness :
    isStatementNode egAnnotatedAssign = true
      ∧ ((is_future_statement egAnnotatedAssign = true →
            visitStmt false egAnnotatedAssign = [genericVisit egAnnotatedAssign])
        ∧ ((false && isDocstringExpr egAnnotatedAssign) = true →
            visitStmt false egAnnotatedAssign = [genericVisit egAnnotatedAssign])
        ∧ (is_future_statement egAnnotatedAssign = false →
            (false && isDocstringExpr egAnnotatedAssign) = false →
            visitStmt false egAnnotatedAssign
              = [.tracking none (treeMarkerSet egAnnotatedAssign),
                 genericVisit egAnnotatedAssign])) :=
  ⟨by decide, C5_plain_statement_instrumentation false egAnnotatedAssign (by decide)⟩

/-- Bounding the marker-collecting fold by a superset of each
contribution. -/
theorem foldl_union_subset (l : List Node) (M : Finset Nat)
    (h : ∀ el ∈ l, el.marker.isSome = true → optMarkerSet el.marker ∪ descMarkers el ⊆ M) :
    l.foldl
        (fun a el => if el.marker.isSome then a ∪ (optMarkerSet el.marker ∪ descMarkers el) else a)
        ∅ ⊆ M := by
  induction l with
  | nil => simp
  | cons el rest ih =>
      simp only [List.foldl_cons]
      by_cases hm : el.marker.isSome
      · simp only [hm, if_true]
        rw [foldl_union_acc]
        refine Finset.union_subset ?_ (ih ?_)
        · simpa using h el (by simp) hm
        · intro e he hm2
          exact h e (by simp [he]) hm2
      · simp only [hm, if_false]
        exact ih fun e he hm2 => h e (by simp [he]) hm2

/-- A list element's subtree nodes all appear in the forest pre-order. -/
theorem preorderNodes_subset_L (ts : List Node) (el : Node) (h : el ∈ ts) :
    ∀ u ∈ preorderNodes el, u ∈ preorderNodesL ts := by
  induction ts with
  | nil => cases h
  | cons t ts ih =>
      intro u hu
      simp only [preorderNodesL, List.mem_append]
      rcases List.mem_cons.mp h with rfl | h2
      · exact Or.inl hu
      · exact Or.inr (ih h2 u hu)

/-- A list element's markers sit inside the forest's marker set. -/
theorem treeMarkerSet_mem_le (ts : List Node) (el : Node) (h : el ∈ ts) :
    treeMarkerSet el ⊆ treeMarkerSetL ts := by
  intro x hx
  simp only [treeMarkerSet, treeMarkerSetL, List.mem_toFinset, List.mem_filterMap] at hx ⊢
  obtain ⟨u, hu, hmu⟩ := hx
  exact ⟨u, preorderNodes_subset_L ts el h u hu, hmu⟩

/-- Instrumenting a body does not change its marker set. -/
theorem treeMarkerSetL_transformBody (dh : Bool) (ts : List Node) :
    treeMarkerSetL (transformBody dh ts) = treeMarkerSetL ts :=
  congrArg List.toFinset (transformBody_markers dh ts)

mutual

/-- Executing instrumented statements only grows `CoveredSet`. -/
theorem execStmt_mono (env : String → Bool) : (t : Node) → (cov : Finset Nat) →
    cov ⊆ execStmt env cov t
  | .module _ body, cov => execStmts_mono env body cov
  | .functionDef _ _ _ _, cov => fun x hx => hx
  | .argumentsNode _ _, cov => fun x hx => hx
  | .argNode _ _, cov => fun x hx => hx
  | .ifStmt _ test body orelse, cov => by
      simp only [execStmt]
      split
      · exact execStmts_mono env body cov
      · exact execStmts_mono env orelse cov
  | .forStmt _ _ _ _ _, cov => fun x hx => hx
  | .whileStmt _ _ _ _, cov => fun x hx => hx
  | .assign _ _ _, cov => fun x hx => hx
  | .exprStmt _ _, cov => fun x hx => hx
  | .importFrom _ _ _ _, cov => fun x hx => hx
  | .aliasNode _ _ _, cov => fun x hx => hx
  | .passStmt _, cov => fun x hx => hx
  | .nameNode _ _ _, cov => fun x hx => hx
  | .load _, cov => fun x hx => hx
  | .store _, cov => fun x hx => hx
  | .numNode _ _, cov => fun x hx => hx
  | .strNode _ _, cov => fun x hx => hx
  | .binOp _ _ _ _, cov => fun x hx => hx
  | .opAdd _, cov => fun x hx => hx
  | .opSub _, cov => fun x hx => hx
  | .opMult _, cov => fun x hx => hx
  | .tupleNode _ _ _, cov => fun x hx => hx
  | .unknown _ _ _, cov => fun x hx => hx
  | .tracking _ _, cov => Finset.subset_union_left

/-- List version of `execStmt_mono`. -/
theorem execStmts_mono (env : String → Bool) : (ts : List Node) → (cov : Finset Nat) →
    cov ⊆ execStmts env cov ts
  | [], cov => fun x hx => hx
  | t :: ts, cov => (execStmt_mono env t cov).trans (execStmts_mono env ts _)

end

/-- Source `visit` renders every branch statement as its tracking statement
followed by the transformed statement: branch kinds are never exempt. -/
theorem visitStmt_branch (dl : Bool) (b : Node) (hbr : isBranchNode b = true) :
    visitStmt dl b = [.tracking none (branchCoverageSet (genericVisit b)), genericVisit b] := by
  cases b <;> simp_all [isBranchNode, visitStmt, isDefinitionNode, isStatementNode,
    is_future_statement, isDocstringExpr, genericVisit, generateCoverageNode_eq]

/-- Claim C10.  For every branch-bearing statement (If, For, While) with
pairwise-distinct subtree markers, the tracking effect injected before
the statement includes the markers of the orelse statements and their
descendants — the marker-exclusion loop runs only over the main body,
never the orelse — and executing the instrumented pair adds those
markers to `CoveredSet` as soon as the branch statement is reached,
whatever the test later selects. -/
theorem C10_orelse_markers_tracked_upfront (b : Node) (dl : Bool)
    (hbr : isBranchNode b = true)
    (hnd : ((preorderNodes b).filterMap Node.marker).Nodup) :
    visitStmt dl b = [.tracking none (branchCoverageSet (genericVisit b)), genericVisit b]
      ∧ treeMarkerSetL (orelseField b) ⊆ branchCoverageSet (genericVisit b)
      ∧ ∀ (env : String → Bool) (cov : Finset Nat),
          treeMarkerSetL (orelseField b) ⊆ execStmts env cov (visitStmt dl b) := by
  have hshape := visitStmt_branch dl b hbr
  have hsub : treeMarkerSetL (orelseField b) ⊆ branchCoverageSet (genericVisit b) := by
    cases b <;> try simp [isBranchNode] at hbr
    · -- If
      rename_i m test body orelse
      have hchar := branchCoverageSet_eq_sdiff (genericVisit (Node.ifStmt m test body orelse))
      rw [plainCoverageSet_gv_eq] at hchar
      have hF : (bodyField (genericVisit (Node.ifStmt m test body orelse))).foldl
          (fun a el =>
            if el.marker.isSome then a ∪ (optMarkerSet el.marker ∪ descMarkers el) else a) ∅
          ⊆ treeMarkerSetL body := by
        have h1 : ∀ el ∈ transformBody false body, el.marker.isSome = true →
            optMarkerSet el.marker ∪ descMarkers el
              ⊆ treeMarkerSetL (transformBody false body) := by
          intro el hel _
          rw [← treeMarkerSet_eq]
          exact treeMarkerSet_mem_le _ el hel
        have h2 := foldl_union_subset (transformBody false body) _ h1
        rwa [treeMarkerSetL_transformBody] at h2
      have hdisj : Disjoint (treeMarkerSetL orelse) (treeMarkerSetL body) := by
        have hnd2 : (((preorderNodes test).filterMap Node.marker
            ++ (preorderNodesL body).filterMap Node.marker)
            ++ (preorderNodesL orelse).filterMap Node.marker).Nodup := by
          cases m with
          | none =>
              simpa only [preorderNodes, List.filterMap_cons, Node.marker,
                List.filterMap_append] using hnd
          | some k =>
              simp only [preorderNodes, List.filterMap_cons, Node.marker,
                List.filterMap_append] at hnd
              exact hnd.of_cons
        rw [List.nodup_append] at hnd2
        have hBO := (List.disjoint_append_left.mp hnd2.2.2).2
        exact List.disjoint_toFinset_iff_disjoint.mpr (List.Disjoint.symm hBO)
      rw [hchar]
      intro x hx
      rw [Finset.mem_sdiff]
      constructor
      · have hsub2 : treeMarkerSetL orelse ⊆ treeMarkerSet (Node.ifStmt m test body orelse) := by
          intro y hy
          simp only [treeMarkerSetL, treeMarkerSet, List.mem_toFinset, List.mem_filterMap,
            preorderNodes, List.mem_cons, List.mem_append] at hy ⊢
          obtain ⟨u, hu, hmu⟩ := hy
          exact ⟨u, by tauto, hmu⟩
        exact hsub2 (by simpa [orelseField] using hx)
      · intro hxF
        exact (Finset.disjoint_left.mp hdisj) (by simpa [orelseField] using hx) (hF hxF)
    · -- For
      rename_i m target iter body orelse
      have hchar := branchCoverageSet_eq_sdiff (genericVisit (Node.forStmt m target iter body orelse))
      rw [plainCoverageSet_gv_eq] at hchar
      have hF : (bodyField (genericVisit (Node.forStmt m target iter body orelse))).foldl
          (fun a el =>
            if el.marker.isSome then a ∪ (optMarkerSet el.marker ∪ descMarkers el) else a) ∅
          ⊆ treeMarkerSetL body := by
        have h1 : ∀ el ∈ transformBody false body, el.marker.isSome = true →
            optMarkerSet el.marker ∪ descMarkers el
              ⊆ treeMarkerSetL (transformBody false body) := by
          intro el hel _
          rw [← treeMarkerSet_eq]
          exact treeMarkerSet_mem_le _ el hel
        have h2 := foldl_union_subset (transformBody false body) _ h1
        rwa [treeMarkerSetL_transformBody] at h2
      have hdisj : Disjoint (treeMarkerSetL orelse) (treeMarkerSetL body) := by
        have hnd2 : ((((preorderNodes target).filterMap Node.marker
            ++ (preorderNodes iter).filterMap Node.marker)
            ++ (preorderNodesL body).filterMap Node.marker)
            ++ (preorderNodesL orelse).filterMap Node.marker).Nodup := by
          cases m with
          | none =>
              simpa only [preorderNodes, List.filterMap_cons, Node.marker,
                List.filterMap_append] using hnd
          | some k =>
              simp only [preorderNodes, List.filterMap_cons, Node.marker,
                List.filterMap_append] at hnd
              exact hnd.of_cons
        rw [List.nodup_append] at hnd2
        have hBO := (List.disjoint_append_left.mp hnd2.2.2).2
        exact List.disjoint_toFinset_iff_disjoint.mpr (List.Disjoint.symm hBO)
      rw [hchar]
      intro x hx
      rw [Finset.mem_sdiff]
      constructor
      · have hsub2 : treeMarkerSetL orelse
            ⊆ treeMarkerSet (Node.forStmt m target iter body orelse) := by
          intro y hy
          simp only [treeMarkerSetL, treeMarkerSet, List.mem_toFinset, List.mem_filterMap,
            preorderNodes, List.mem_cons, List.mem_append] at hy ⊢
          obtain ⟨u, hu, hmu⟩ := hy
          exact ⟨u, by tauto, hmu⟩
        exact hsub2 (by simpa [orelseField] using hx)
      · intro hxF
        exact (Finset.disjoint_left.mp hdisj) (by simpa [orelseField] using hx) (hF hxF)
    · -- While
      rename_i m test body orelse
      have hchar := branchCoverageSet_eq_sdiff (genericVisit (Node.whileStmt m test body orelse))
      rw [plainCoverageSet_gv_eq] at hchar
      have hF : (bodyField (genericVisit (Node.whileStmt m test body orelse))).foldl
          (fun a el =>
            if el.marker.isSome then a ∪ (optMarkerSet el.marker ∪ descMarkers el) else a) ∅
          ⊆ treeMarkerSetL body := by
        have h1 : ∀ el ∈ transformBody false body, el.marker.isSome = true →
            optMarkerSet el.marker ∪ descMarkers el
              ⊆ treeMarkerSetL (transformBody false body) := by
          intro el hel _
          rw [← treeMarkerSet_eq]
          exact treeMarkerSet_mem_le _ el hel
        have h2 := foldl_union_subset (transformBody false body) _ h1
        rwa [treeMarkerSetL_transformBody] at h2
      have hdisj : Disjoint (treeMarkerSetL orelse) (treeMarkerSetL body) := by
        have hnd2 : (((preorderNodes test).filterMap Node.marker
            ++ (preorderNodesL body).filterMap Node.marker)
            ++ (preorderNodesL orelse).filterMap Node.marker).Nodup := by
          cases m with
          | none =>
              simpa only [preorderNodes, List.filterMap_cons, Node.marker,
                List.filterMap_append] using hnd
          | some k =>
              simp only [preorderNodes, List.filterMap_cons, Node.marker,
                List.filterMap_append] at hnd
              exact hnd.of_cons
        rw [List.nodup_append] at hnd2
        have hBO := (List.disjoint_append_left.mp hnd2.2.2).2
        exact List.disjoint_toFinset_iff_disjoint.mpr (List.Disjoint.symm hBO)
      rw [hchar]
      intro x hx
      rw [Finset.mem_sdiff]
      constructor
      · have hsub2 : treeMarkerSetL orelse
            ⊆ treeMarkerSet (Node.whileStmt m test body orelse) := by
          intro y hy
          simp only [treeMarkerSetL, treeMarkerSet, List.mem_toFinset, List.mem_filterMap,
            preorderNodes, List.mem_cons, List.mem_append] at hy ⊢
          obtain ⟨u, hu, hmu⟩ := hy
          exact ⟨u, by tauto, hmu⟩
        exact hsub2 (by simpa [orelseField] using hx)
      · intro hxF
        exact (Finset.disjoint_left.mp hdisj) (by simpa [orelseField] using hx) (hF hxF)
  refine ⟨hshape, hsub, ?_⟩
  intro env cov
  rw [hshape]
  show treeMarkerSetL (orelseField b)
    ⊆ execStmts env (execStmt env cov (.tracking none (branchCoverageSet (genericVisit b))))
        [genericVisit b]
  refine hsub.trans (Finset.Subset.trans ?_ (execStmts_mono env [genericVisit b] _))
  show branchCoverageSet (genericVisit b)
    ⊆ cov ∪ branchCoverageSet (genericVisit b)
  exact Finset.subset_union_right

/-- Witness for C10 on the annotated `if x: y = 1 else: z = 2`. -/
theorem C10_orelse_markers_tracked_upfront_witness :
    (isBranchNode egAnnotatedIfElse = true
      ∧ ((preorderNodes egAnnotatedIfElse).filterMap Node.marker).Nodup)
      ∧ (visitStmt false egAnnotatedIfElse
            = [.tracking none (branchCoverageSet (genericVisit egAnnotatedIfElse)),
               genericVisit egAnnotatedIfElse]
        ∧ treeMarkerSetL (orelseField egAnnotatedIfElse)
            ⊆ branchCoverageSet (genericVisit egAnnotatedIfElse)
        ∧ ∀ (env : String → Bool) (cov : Finset Nat),
            treeMarkerSetL (orelseField egAnnotatedIfElse)
              ⊆ execStmts env cov (visitStmt false egAnnotatedIfElse)) :=
  ⟨⟨by decide, by decide⟩,
    C10_orelse_markers_tracked_upfront egAnnotatedIfElse false (by decide) (by decide)⟩

/-!  String plumbing for the tuple-rendering theorem.  -/

theorem strJoin_hoist : (l : List String) → ∀ a b : String,
    l.foldl (fun r s => r ++ s) (a ++ b) = a ++ l.foldl (fun r s => r ++ s) b
  | [], a, b => rfl
  | c :: l, a, b => by
      simp only [List.foldl_cons]
      rw [String.append_assoc, strJoin_hoist l a (b ++ c)]

theorem strJoin_cons (a : String) (l : List String) :
    String.join (a :: l) = a ++ String.join l := by
  show l.foldl (fun r s => r ++ s) ("" ++ a) = a ++ l.foldl (fun r s => r ++ s) ""
  rw [show ("" ++ a : String) = a ++ "" by simp, strJoin_hoist]

theorem strJoin_append (l1 l2 : List String) :
    String.join (l1 ++ l2) = String.join l1 ++ String.join l2 := by
  induction l1 with
  | nil => simp [String.join]
  | cons a l ih =>
      rw [List.cons_append, strJoin_cons, strJoin_cons, ih, String.append_assoc]

theorem intercalate_go_cons (s a b : String) : (l : List String) →
    String.intercalate.go a s (b :: l) = a ++ s ++ String.intercalate.go b s l
  | [] => rfl
  | c :: l => by
      show String.intercalate.go (a ++ s ++ b) s (c :: l) = _
      rw [intercalate_go_cons s (a ++ s ++ b) c l, intercalate_go_cons s b c l]
      simp [String.append_assoc]

theorem intercalate_cons2 (s a b : String) (l : List String) :
    String.intercalate s (a :: b :: l) = a ++ s ++ String.intercalate s (b :: l) := by
  simp only [String.intercalate]
  exact intercalate_go_cons s a b l

/-- Comma-separated text as the head text plus `", "`-prefixed tails. -/
theorem intercalate_map_comma (f : Node → String) (e : Node) : (ts : List Node) →
    String.intercalate ", " ((e :: ts).map f)
      = f e ++ String.join (ts.map fun x => ", " ++ f x)
  | [] => by
      simp only [List.map_cons, List.map_nil]
      rw [show String.intercalate ", " [f e] = f e from rfl]
      simp [String.join]
  | b :: ts => by
      rw [List.map_cons, List.map_cons, intercalate_cons2, ← List.map_cons f b ts,
        intercalate_map_comma f b ts, List.map_cons, strJoin_cons]
      simp [String.append_assoc]

mutual

/-- Rendering a pure expression from a `new_line`-free state appends a
fixed token list — the tokens of its standalone rendering — leaving
indentation and the flag untouched, and never fails; the appended text
joins to the expression's standalone `to_source` text. -/
theorem visitN_pure_out : (e : Node) → pureExpr e = true →
    ∃ out : List String,
      (∀ (r : List String) (i : Nat), visitN e ⟨r, i, false⟩ = Except.ok ⟨r ++ out, i, false⟩)
        ∧ String.join out = exprText e
  | .nameNode m id ctx, _ => ⟨[id], fun r i => rfl, rfl⟩
  | .numNode m n, _ => ⟨[pyReprInt n], fun r i => rfl, rfl⟩
  | .strNode m s, _ => ⟨[pyReprStr s], fun r i => rfl, rfl⟩
  | .binOp m l op rt, hp => by
      simp only [pureExpr, Bool.and_eq_true] at hp
      obtain ⟨⟨hl, hop⟩, hr⟩ := hp
      obtain ⟨outL, hL, -⟩ := visitN_pure_out l hl
      obtain ⟨outR, hR, -⟩ := visitN_pure_out rt hr
      obtain ⟨sym, hsym⟩ := Option.isSome_iff_exists.mp hop
      have hall : ∀ (r : List String) (i : Nat),
          visitN (.binOp m l op rt) ⟨r, i, false⟩
            = Except.ok ⟨r ++ (outL ++ ([" " ++ sym ++ " "] ++ outR)), i, false⟩ := by
        intro r i
        simp only [visitN, hL r i, hsym, Except.bind, bind]
        rw [show write (" " ++ sym ++ " ") ⟨r ++ outL, i, false⟩
            = ⟨(r ++ outL) ++ [" " ++ sym ++ " "], i, false⟩ from rfl]
        rw [hR]
        simp [List.append_assoc]
      refine ⟨outL ++ ([" " ++ sym ++ " "] ++ outR), hall, ?_⟩
      have h0 := hall [] 0
      simp only [List.nil_append] at h0
      simp [exprText, to_source, h0, Except.map]
  | .tupleNode m elts ctx, hp => by
      cases elts with
      | nil =>
          refine ⟨["(", ")"], fun r i => ?_, rfl⟩
          show Except.ok (⟨(r ++ ["("]) ++ [")"], i, false⟩ : GenState) = _
          simp [List.append_assoc]
      | cons e ts =>
          simp only [pureExprL, pureExpr, Bool.and_eq_true] at hp
          obtain ⟨he, hts⟩ := hp
          obtain ⟨outE, hE, -⟩ := visitN_pure_out e he
          obtain ⟨outT, hT, -⟩ := commaTail_pure_out ts hts
          have hall : ∀ (r : List String) (i : Nat),
              visitN (.tupleNode m (e :: ts) ctx) ⟨r, i, false⟩
                = Except.ok ⟨r ++ (["("] ++ (outE ++ (outT
                    ++ [if ((e :: ts).length : Int) - 1 = 0 then ",)" else ")"]))), i, false⟩ := by
            intro r i
            simp only [visitN, visitCommaSep]
            rw [show write "(" ⟨r, i, false⟩ = ⟨r ++ ["("], i, false⟩ from rfl]
            rw [hE]
            simp only [Except.bind, bind]
            rw [hT]
            simp [write, correctLineNumber, List.append_assoc]
          refine ⟨["("] ++ (outE ++ (outT
              ++ [if ((e :: ts).length : Int) - 1 = 0 then ",)" else ")"])), hall, ?_⟩
          have h0 := hall [] 0
          simp only [List.nil_append] at h0
          simp [exprText, to_source, h0, Except.map]
  | .module m body, hp => by simp [pureExpr] at hp
  | .functionDef m f args body, hp => by simp [pureExpr] at hp
  | .argumentsNode m args, hp => by simp [pureExpr] at hp
  | .argNode m a, hp => by simp [pureExpr] at hp
  | .ifStmt m t b o, hp => by simp [pureExpr] at hp
  | .forStmt m t it b o, hp => by simp [pureExpr] at hp
  | .whileStmt m t b o, hp => by simp [pureExpr] at hp
  | .assign m t v, hp => by simp [pureExpr] at hp
  | .exprStmt m v, hp => by simp [pureExpr] at hp
  | .importFrom m md ns lv, hp => by simp [pureExpr] at hp
  | .aliasNode m a asn, hp => by simp [pureExpr] at hp
  | .passStmt m, hp => by simp [pureExpr] at hp
  | .load m, hp => by simp [pureExpr] at hp
  | .store m, hp => by simp [pureExpr] at hp
  | .opAdd m, hp => by simp [pureExpr] at hp
  | .opSub m, hp => by simp [pureExpr] at hp
  | .opMult m, hp => by simp [pureExpr] at hp
  | .unknown m tag ch, hp => by simp [pureExpr] at hp
  | .tracking m s, hp => by simp [pureExpr] at hp

/-- The comma-separated tail loop appends `", "`-separated renderings of
its pure elements, joining to the `", "`-prefixed standalone texts. -/
theorem commaTail_pure_out : (ts : List Node) → pureExprL ts = true →
    ∃ out : List String,
      (∀ (r : List String) (i : Nat),
        visitCommaTail ts ⟨r, i, false⟩ = Except.ok ⟨r ++ out, i, false⟩)
        ∧ String.join out = String.join (ts.map fun x => ", " ++ exprText x)
  | [], _ => ⟨[], fun r i => by simp [visitCommaTail], rfl⟩
  | e :: ts, hp => by
      simp only [pureExprL, Bool.and_eq_true] at hp
      obtain ⟨he, hts⟩ := hp
      obtain ⟨outE, hE, hEtext⟩ := visitN_pure_out e he
      obtain ⟨outT, hT, hTtext⟩ := commaTail_pure_out ts hts
      refine ⟨", " :: (outE ++ outT), fun r i => ?_, ?_⟩
      · simp only [visitCommaTail]
        rw [show write ", " ⟨r, i, false⟩ = ⟨r ++ [", "], i, false⟩ from rfl]
        rw [hE]
        simp only [Except.bind, bind]
        rw [hT]
        simp [List.append_assoc]
      · rw [strJoin_cons, strJoin_append, hEtext, hTtext, List.map_cons, strJoin_cons]
        simp [String.append_assoc]
end

/-- Claim C8.  A tuple renders as its elements' own renderings, joined by
`", "` inside parentheses; a one-element tuple carries the
disambiguating trailing comma before the closing parenthesis, and the
empty tuple renders as `()` with no trailing comma. -/
theorem C8_tuple_rendering (m : Option Nat) (ctx : Node) (elts : List Node)
    (h : pureExprL elts = true) :
    to_source (.tupleNode m elts ctx)
      = .ok ("(" ++ String.intercalate ", " (elts.map exprText)
          ++ (if elts.length = 1 then ",)" else ")")) := by
  cases elts with
  | nil => rfl
  | cons e ts =>
      simp only [pureExprL, Bool.and_eq_true] at h
      obtain ⟨he, hts⟩ := h
      obtain ⟨outE, hE, hEtext⟩ := visitN_pure_out e he
      obtain ⟨outT, hT, hTtext⟩ := commaTail_pure_out ts hts
      have hrun : visitN (.tupleNode m (e :: ts) ctx) ⟨[], 0, false⟩
          = Except.ok ⟨"(" :: (outE ++ (outT
              ++ [if ((e :: ts).length : Int) - 1 = 0 then ",)" else ")"])), 0, false⟩ := by
        simp only [visitN, visitCommaSep]
        rw [show write "(" (⟨[], 0, false⟩ : GenState) = ⟨["("], 0, false⟩ from rfl]
        rw [hE]
        simp only [Except.bind, bind]
        rw [hT]
        simp [write, correctLineNumber, List.append_assoc]
      show (visitN (.tupleNode m (e :: ts) ctx) ⟨[], 0, false⟩).map
          (fun s => String.join s.result) = _
      rw [hrun]
      simp only [Except.map]
      rw [strJoin_cons, strJoin_append, strJoin_append, hEtext, hTtext,
        intercalate_map_comma exprText e ts]
      have hiff : (((e :: ts).length : Int) - 1 = 0) = ((e :: ts).length = 1) :=
        propext ⟨fun h2 => by omega, fun h2 => by omega⟩
      simp only [hiff]
      rw [show String.join [if (e :: ts).length = 1 then ",)" else ")"]
          = (if (e :: ts).length = 1 then ",)" else ")") ++ String.join [] from strJoin_cons _ _]
      simp [String.append_assoc, String.append_empty, String.join]

/-- Witness for C8: `to_source` on the annotated tuple `(x,)` and the
claim's rendering shape coincide. -/
theorem C8_tuple_rendering_witness :
    pureExprL [Node.nameNode none "x" (.load none)] = true
      ∧ to_source (.tupleNode none [Node.nameNode none "x" (.load none)] (.load none))
          = .ok ("(" ++ String.intercalate ", "
              ([Node.nameNode none "x" (.load none)].map exprText)
            ++ (if [Node.nameNode none "x" (.load none)].length = 1 then ",)" else ")")) :=
  ⟨by decide, C8_tuple_rendering none (.load none) [Node.nameNode none "x" (.load none)] (by decide)⟩
